import Mathlib

/- Verification of the minirel buffer manager (src/buf.C, src/s3/buf.C) and the
   heap-file layer (src/s4/heapfile.C).  The development shallowly embeds both
   components: the buffer manager as a state machine over a frame table, an
   abstract page pool and a residency (hash) index, and the heap-file layer as
   a state machine over a linked list of slotted data pages.  External
   collaborators (the paged file store, the page-level record layout and the
   buffer hash table, whose sources are not in src/) are modelled from the
   specification, as marked in their doc comments. -/

set_option maxHeartbeats 1000000

/-- Status codes used at the component boundary (spec section 6; error.h is
not part of src/, the constructors are the codes the sources mention). -/
inductive Status where
  | OK
  | BUFFEREXCEEDED
  | PAGEPINNED
  | PAGENOTPINNED
  | BADBUFFER
  | HASHNOTFOUND
  | HASHTBLERROR
  | UNIXERR
  | FILEEOF
  | FILEEXISTS
  | BADSCANPARM
  | INVALIDRECLEN
  | NOSPACE
  | NORECORDS
  | ENDOFPAGE
  | BADPAGENO
  | INVALIDSLOTNO
  deriving DecidableEq, Repr

/-- A frame descriptor of the buffer manager (class BufDesc of buf.h, whose
fields are listed in spec section 3).  A file is identified by a natural
number standing for the File pointer; the null pointer is modelled as
Option.none. -/
structure BufDesc where
  frameNo : Nat
  valid : Bool
  file : Option Nat
  pageNo : Int
  pinCnt : Nat
  dirty : Bool
  refbit : Bool
  deriving DecidableEq, Repr

/-- Modelled from the spec: BufDesc.Clear restores valid=false, pinCnt=0,
dirty=false, refbit=0, file=null while preserving frameNo (spec section 3);
the undefined pageNo is fixed to -1. -/
def BufDesc.Clear (d : BufDesc) : BufDesc :=
  ⟨d.frameNo, false, none, -1, 0, false, false⟩

/-- Modelled from the spec: BufDesc.Set initialises the descriptor with the
given identity and pinCnt=1, dirty=false, refbit=1 (spec sections 4.2.2 and
4.2.3), preserving frameNo. -/
def BufDesc.Set (d : BufDesc) (f : Nat) (p : Int) : BufDesc :=
  ⟨d.frameNo, true, some f, p, 1, false, true⟩

/-- Keys of the residency index: (file identity, page number). -/
abbrev HKey := Nat × Int

/-- The residency index (class BufHashTbl, not in src/) modelled from spec
section 4.1 as an association list. -/
abbrev HashT := List (HKey × Nat)

/-- Modelled from the spec: BufHashTbl.lookup as association-list lookup. -/
def hfind : HashT → HKey → Option Nat
  | [], _ => none
  | e :: rest, k => if e.1 = k then some e.2 else hfind rest k

/-- Modelled from the spec: BufHashTbl.insert fails (none, surfaced as
HASHTBLERROR) when the key is already present. -/
def hinsert (ht : HashT) (k : HKey) (v : Nat) : Option HashT :=
  if (hfind ht k).isSome then none else some ((k, v) :: ht)

/-- Removal of every entry with the given key from the association list. -/
def hdrop : HashT → HKey → HashT
  | [], _ => []
  | e :: rest, k => if e.1 = k then hdrop rest k else e :: hdrop rest k

/-- Modelled from the spec: BufHashTbl.remove fails (none, surfaced as
HASHNOTFOUND) when the key is absent. -/
def hremove (ht : HashT) (k : HKey) : Option HashT :=
  if (hfind ht k).isSome then some (hdrop ht k) else none

/-- The on-disk store, mapping (file, pageNo) to an abstract page content. -/
abbrev DiskT := List (HKey × Int)

/-- Lookup of a disk page's content, 0 for never-written pages. -/
def dfind : DiskT → HKey → Int
  | [], _ => 0
  | e :: rest, k => if e.1 = k then e.2 else dfind rest k

/-- Pointwise disk update. -/
def dwrite (dk : DiskT) (k : HKey) (v : Int) : DiskT :=
  (k, v) :: dk

/-- The buffer-manager state: the fields of class BufMgr (frame table, page
pool, residency index, clock hand) together with the modelled environment
(disk contents, the sets of pages whose read/write fails, I/O logs, and the
counter backing File::allocatePage). -/
structure BufState where
  numBufs : Nat
  bufTable : List BufDesc
  bufPool : List Int
  hashTable : HashT
  clockHand : Nat
  disk : DiskT
  readErrs : List HKey
  writeErrs : List HKey
  readLog : List HKey
  writeLog : List HKey
  nextAlloc : Int
  deriving DecidableEq, Repr

/-- Modelled from the spec: BufMgr.advanceClock advances the clock hand
modulo numBufs (spec section 4.2.1, step 2; the function lives in buf.h). -/
def advanceClock (s : BufState) : BufState :=
  {s with clockHand := (s.clockHand + 1) % s.numBufs}

/-- Modelled from the spec: File::readPage copies PAGESIZE bytes of the page
into the pool frame; it fails exactly on the modelled bad pages.  Every issued
read is logged. -/
def fileReadPage (s : BufState) (f : Nat) (p : Int) (frame : Nat) : Status × BufState :=
  let s1 := {s with readLog := s.readLog ++ [(f, p)]}
  if (f, p) ∈ s.readErrs then (Status.UNIXERR, s1)
  else (Status.OK, {s1 with bufPool := s1.bufPool.set frame (dfind s1.disk (f, p))})

/-- Modelled from the spec: File::writePage transfers the frame's bytes to
disk; it fails exactly on the modelled bad pages.  Every issued write is
logged. -/
def fileWritePage (s : BufState) (f : Nat) (p : Int) (v : Int) : Status × BufState :=
  let s1 := {s with writeLog := s.writeLog ++ [(f, p)]}
  if (f, p) ∈ s.writeErrs then (Status.UNIXERR, s1)
  else (Status.OK, {s1 with disk := dwrite s1.disk (f, p) v})

/-- The body of BufMgr::allocBuf's while(true) loop (buf.C lines 66-122),
made total with a fuel argument; none means the fuel ran out or the machine
left the states the source's pointer arithmetic is defined on. -/
def allocBufLoop : BufState → Nat → Nat → Option (Status × Nat × BufState)
  | _, _, 0 => none
  | s, numPinnedPages, fuel + 1 =>
    if s.numBufs = numPinnedPages then some (Status.BUFFEREXCEEDED, 0, s)
    else
      let s := advanceClock s
      match s.bufTable.get? s.clockHand with
      | none => none
      | some d =>
        if d.valid = false then
          some (Status.OK, d.frameNo, {s with bufTable := s.bufTable.set s.clockHand d.Clear})
        else if d.refbit then
          allocBufLoop {s with bufTable := s.bufTable.set s.clockHand {d with refbit := false}}
            numPinnedPages fuel
        else if d.pinCnt > 0 then
          allocBufLoop s (numPinnedPages + 1) fuel
        else
          match d.file with
          | none => none
          | some f =>
            let finish := fun (s1 : BufState) =>
              match hremove s1.hashTable (f, d.pageNo) with
              | none => some (Status.HASHNOTFOUND, 0, s1)
              | some ht1 =>
                some (Status.OK, d.frameNo,
                  {s1 with hashTable := ht1,
                           bufTable := s1.bufTable.set s1.clockHand d.Clear})
            if d.dirty then
              match fileWritePage s f d.pageNo (s.bufPool.getD s.clockHand 0) with
              | (Status.OK, s1) =>
                finish {s1 with bufTable := s1.bufTable.set s1.clockHand {d with dirty := true}}
              | (_, s1) => some (Status.UNIXERR, 0, s1)
            else finish s

/-- BufMgr::allocBuf (buf.C lines 66-122): runs the clock loop with enough
fuel for its worst case (at most numBufs reference-bit clears, numBufs + 1
pinned-frame observations and one exit iteration). -/
def allocBuf (s : BufState) : Option (Status × Nat × BufState) :=
  allocBufLoop s 0 (2 * s.numBufs + 2)

/-- BufMgr::disposePage (buf.C lines 220-235); File::disposePage is modelled
from the spec as always succeeding. -/
def disposePage (s : BufState) (f : Nat) (p : Int) : Status × BufState :=
  let s1 :=
    match hfind s.hashTable (f, p) with
    | some frame =>
      match s.bufTable.get? frame with
      | some d => {s with bufTable := s.bufTable.set frame d.Clear}
      | none => s
    | none => s
  let s2 :=
    match hremove s1.hashTable (f, p) with
    | some ht1 => {s1 with hashTable := ht1}
    | none => s1
  (Status.OK, s2)

/-- BufMgr::readPage (buf.C lines 124-166).  The returned Nat is the frame
number the output Page pointer refers to. -/
def readPage (s : BufState) (f : Nat) (p : Int) : Option (Status × Nat × BufState) :=
  match hfind s.hashTable (f, p) with
  | none =>
    match allocBuf s with
    | none => none
    | some (st, frame, s1) =>
      if st = Status.OK then
        match fileReadPage s1 f p frame with
        | (Status.OK, s2) =>
          match hinsert s2.hashTable (f, p) frame with
          | none => some (Status.HASHTBLERROR, 0, s2)
          | some ht1 =>
            let s3 := {s2 with hashTable := ht1}
            match s3.bufTable.get? frame with
            | none => none
            | some d =>
              some (Status.OK, frame,
                {s3 with bufTable := s3.bufTable.set frame {d.Set f p with frameNo := frame}})
        | (st2, s2) => some (st2, 0, (disposePage s2 f p).2)
      else some (st, 0, s1)
  | some frame =>
    match s.bufTable.get? frame with
    | none => none
    | some d =>
      some (Status.OK, frame,
        {s with bufTable := s.bufTable.set frame {d with refbit := true, pinCnt := d.pinCnt + 1}})

/-- BufMgr::unPinPage (buf.C lines 168-188). -/
def unPinPage (s : BufState) (f : Nat) (p : Int) (dirty : Bool) : Option (Status × BufState) :=
  match hfind s.hashTable (f, p) with
  | none => some (Status.HASHNOTFOUND, s)
  | some frame =>
    match s.bufTable.get? frame with
    | none => none
    | some d =>
      if d.pinCnt = 0 then some (Status.PAGENOTPINNED, s)
      else
        let d1 : BufDesc := {d with dirty := if dirty then true else d.dirty, pinCnt := d.pinCnt - 1}
        some (Status.OK, {s with bufTable := s.bufTable.set frame d1})

/-- BufMgr::allocPage (buf.C lines 190-218); File::allocatePage is modelled
from the spec as handing out the next page number from a counter, always
succeeding.  Returns (status, new page number, frame). -/
def allocPage (s : BufState) (f : Nat) : Option (Status × Int × Nat × BufState) :=
  let pageNum := s.nextAlloc
  let s0 := {s with nextAlloc := s.nextAlloc + 1}
  match allocBuf s0 with
  | none => none
  | some (st, frame, s1) =>
    if st = Status.OK then
      match hinsert s1.hashTable (f, pageNum) frame with
      | none => some (Status.HASHTBLERROR, 0, 0, s1)
      | some ht1 =>
        let s2 := {s1 with hashTable := ht1}
        match s2.bufTable.get? frame with
        | none => none
        | some d =>
          some (Status.OK, pageNum, frame,
            {s2 with bufTable := s2.bufTable.set frame (d.Set f pageNum)})
    else some (st, 0, 0, s1)

/-- The body of BufMgr::flushFile's for loop (buf.C lines 237-272), recursing
on the count of frames still to visit, starting at index i. -/
def flushLoop (f : Nat) : BufState → Nat → Nat → Option (Status × BufState)
  | s, _, 0 => some (Status.OK, s)
  | s, i, cnt + 1 =>
    match s.bufTable.get? i with
    | none => none
    | some d =>
      if d.valid = true ∧ d.file = some f then
        if d.pinCnt > 0 then some (Status.PAGEPINNED, s)
        else
          let afterWrite := fun (s1 : BufState) (d1 : BufDesc) =>
            let d2 : BufDesc := {d1 with file := none, pageNo := -1, valid := false}
            let s2 : BufState := {s1 with hashTable := hdrop s1.hashTable (f, d1.pageNo),
                                          bufTable := s1.bufTable.set i d2}
            flushLoop f s2 (i + 1) cnt
          if d.dirty then
            match fileWritePage s f d.pageNo (s.bufPool.getD i 0) with
            | (Status.OK, s1) => afterWrite s1 {d with dirty := false}
            | (st, s1) => some (st, s1)
          else afterWrite s d
      else if d.valid = false ∧ d.file = some f then some (Status.BADBUFFER, s)
      else flushLoop f s (i + 1) cnt

/-- BufMgr::flushFile (buf.C lines 237-272). -/
def flushFile (s : BufState) (f : Nat) : Option (Status × BufState) :=
  flushLoop f s 0 s.numBufs

/- ------------------------------------------------------------------ -/
/- Basic lemmas about the list primitives used by the embedding.       -/
/- ------------------------------------------------------------------ -/

theorem get?_set_self {α : Type} (l : List α) (i : Nat) (a : α) (h : i < l.length) :
    (l.set i a).get? i = some a := by
  rw [List.get?_set_eq]
  cases h3 : l.get? i with
  | none =>
    rw [List.get?_eq_none] at h3
    omega
  | some b => rfl

theorem get?_set_ne {α : Type} (l : List α) (i j : Nat) (a : α) (h : i ≠ j) :
    (l.set i a).get? j = l.get? j :=
  List.get?_set_ne a l h

theorem get?_set_cases {α : Type} (l : List α) (i j : Nat) (a : α) (b : α)
    (h : (l.set i a).get? j = some b) : b = a ∨ l.get? j = some b := by
  by_cases hij : i = j
  · subst hij
    rw [List.get?_set_eq] at h
    cases h2 : l.get? i with
    | none => rw [h2] at h; exact absurd h (by simp)
    | some c => rw [h2] at h; simp at h; exact Or.inl h.symm
  · right
    rw [get?_set_ne l i j a hij] at h
    exact h

theorem hfind_hdrop_self (ht : HashT) (k : HKey) : hfind (hdrop ht k) k = none := by
  induction ht with
  | nil => rfl
  | cons e rest ih =>
    by_cases he : e.1 = k
    · rw [hdrop, if_pos he]; exact ih
    · rw [hdrop, if_neg he, hfind, if_neg he]; exact ih

theorem hfind_hdrop_ne (ht : HashT) (k k2 : HKey) (h : k2 ≠ k) :
    hfind (hdrop ht k) k2 = hfind ht k2 := by
  induction ht with
  | nil => rfl
  | cons e rest ih =>
    by_cases he : e.1 = k
    · rw [hdrop, if_pos he, hfind, if_neg (by rw [he]; exact fun h2 => h h2.symm)]
      exact ih
    · rw [hdrop, if_neg he, hfind, hfind]
      by_cases he2 : e.1 = k2
      · rw [if_pos he2, if_pos he2]
      · rw [if_neg he2, if_neg he2]; exact ih

theorem mem_hdrop (ht : HashT) (k : HKey) (e : HKey × Nat) (h : e ∈ hdrop ht k) :
    e ∈ ht ∧ e.1 ≠ k := by
  induction ht with
  | nil => simp [hdrop] at h
  | cons e2 rest ih =>
    by_cases he : e2.1 = k
    · rw [hdrop, if_pos he] at h
      have := ih h
      exact ⟨List.mem_cons_of_mem e2 this.1, this.2⟩
    · rw [hdrop, if_neg he] at h
      rcases List.mem_cons.mp h with h2 | h2
      · subst h2; exact ⟨List.mem_cons_self e rest, he⟩
      · have := ih h2
        exact ⟨List.mem_cons_of_mem e2 this.1, this.2⟩

theorem mem_of_hfind (ht : HashT) (k : HKey) (v : Nat) (h : hfind ht k = some v) :
    (k, v) ∈ ht := by
  induction ht with
  | nil => simp [hfind] at h
  | cons e rest ih =>
    rw [hfind] at h
    by_cases he : e.1 = k
    · rw [if_pos he] at h
      simp only [Option.some.injEq] at h
      have : e = (k, v) := by
        cases e; simp_all
      rw [← this]
      exact List.mem_cons_self e rest
    · rw [if_neg he] at h
      exact List.mem_cons_of_mem e (ih h)

theorem hfind_isSome_of_mem (ht : HashT) (e : HKey × Nat) (h : e ∈ ht) :
    (hfind ht e.1).isSome = true := by
  induction ht with
  | nil => simp at h
  | cons e2 rest ih =>
    rw [hfind]
    by_cases he : e2.1 = e.1
    · rw [if_pos he]; rfl
    · rw [if_neg he]
      rcases List.mem_cons.mp h with h2 | h2
      · exact absurd (by rw [h2]) he
      · exact ih h2

/- ------------------------------------------------------------------ -/
/- C1: allocBuf and BUFFEREXCEEDED.                                    -/
/- ------------------------------------------------------------------ -/

/-- A two-frame pool in which frame 0 holds page (7,0) pinned with a clear
reference bit and frame 1 holds page (7,1) unpinned with its reference bit
set; the clock hand is at 1 (its constructor position numBufs - 1).  The
state is reachable: read pages 0 and 1, unpin 1, read page 2 into frame 1
(the sweep clears frame 0's reference bit), unpin 2. -/
def c1State : BufState :=
  ⟨2, [⟨0, true, some 7, 0, 1, false, false⟩, ⟨1, true, some 7, 1, 0, false, true⟩],
   [10, 11], [((7, 0), 0), ((7, 1), 1)], 1, [], [], [], [], [], 5⟩

/-- C1 (code_bug evaluation): allocBuf returns BUFFEREXCEEDED on c1State even
though frame 1 is valid with pinCnt = 0, refuting "allocBuf returns
BUFFEREXCEEDED only when every one of the numBufs frames is pinned": the
numPinnedPages counter of buf.C lines 66-122 is never reset between sweeps,
so the single pinned frame 0 is counted once per sweep and reaches
numBufs = 2 before the clock hand revisits the now-unreferenced frame 1. -/
theorem c1_allocBuf_bufferexceeded_with_unpinned_frame :
    (allocBuf c1State).map (fun r => r.1) = some Status.BUFFEREXCEEDED ∧
    c1State.bufTable.get? 1 = some ⟨1, true, some 7, 1, 0, false, true⟩ := by
  exact ⟨rfl, rfl⟩

/- ------------------------------------------------------------------ -/
/- C5: unPinPage.                                                      -/
/- ------------------------------------------------------------------ -/

/-- C5: unPinPage returns HASHNOTFOUND when (file, pageNo) is not resident
and PAGENOTPINNED when the resident frame's pinCnt is 0, leaving the state
unchanged in both error cases; otherwise it decrements pinCnt and sets the
dirty bit exactly when the caller passes dirty = true; and no call ever
clears a dirty bit: every frame dirty before the call is dirty after it. -/
theorem c5_unPinPage_spec (s : BufState) (f : Nat) (p : Int) (dirty : Bool)
    (st : Status) (s2 : BufState)
    (h : unPinPage s f p dirty = some (st, s2)) :
    (hfind s.hashTable (f, p) = none → st = Status.HASHNOTFOUND ∧ s2 = s) ∧
    (∀ fr d, hfind s.hashTable (f, p) = some fr → s.bufTable.get? fr = some d →
      d.pinCnt = 0 → st = Status.PAGENOTPINNED ∧ s2 = s) ∧
    (∀ fr d, hfind s.hashTable (f, p) = some fr → s.bufTable.get? fr = some d →
      d.pinCnt ≠ 0 → st = Status.OK ∧
      s2 = {s with bufTable := s.bufTable.set fr {d with dirty := if dirty then true else d.dirty, pinCnt := d.pinCnt - 1}}) ∧
    (∀ i d d2, s.bufTable.get? i = some d → s2.bufTable.get? i = some d2 →
      d.dirty = true → d2.dirty = true) := by
  refine ⟨?_, ?_, ?_, ?_⟩
  · intro hnone
    simp only [unPinPage, hnone, Option.some.injEq, Prod.mk.injEq] at h
    exact ⟨h.1.symm, h.2.symm⟩
  · intro fr d hfr hd hpin
    simp only [unPinPage, hfr, hd, if_pos hpin, Option.some.injEq, Prod.mk.injEq] at h
    exact ⟨h.1.symm, h.2.symm⟩
  · intro fr d hfr hd hpin
    simp only [unPinPage, hfr, hd, if_neg hpin, Option.some.injEq, Prod.mk.injEq] at h
    exact ⟨h.1.symm, h.2.symm⟩
  · intro i d d2 hd hd2 hdirty
    rcases hsplit : hfind s.hashTable (f, p) with _ | fr
    · simp only [unPinPage, hsplit, Option.some.injEq, Prod.mk.injEq] at h
      rw [← h.2] at hd2
      rw [hd] at hd2
      cases hd2
      exact hdirty
    · rcases hdf : s.bufTable.get? fr with _ | df
      · simp only [unPinPage, hsplit, hdf] at h
        cases h
      · by_cases hpin : df.pinCnt = 0
        · simp only [unPinPage, hsplit, hdf, if_pos hpin, Option.some.injEq,
            Prod.mk.injEq] at h
          rw [← h.2] at hd2
          rw [hd] at hd2
          cases hd2
          exact hdirty
        · simp only [unPinPage, hsplit, hdf, if_neg hpin, Option.some.injEq,
            Prod.mk.injEq] at h
          rw [← h.2] at hd2
          simp only at hd2
          by_cases hif : fr = i
          · subst hif
            rw [hd] at hdf
            cases hdf
            rw [get?_set_self _ _ _ (by
              have := List.get?_eq_some.mp hd
              exact this.1)] at hd2
            cases hd2
            simp only
            cases dirty
            · simpa using hdirty
            · simp
          · rw [get?_set_ne _ _ _ _ hif] at hd2
            rw [hd] at hd2
            cases hd2
            exact hdirty

/-- A one-frame pool holding page (3,4) pinned twice, used to witness the
success path of unPinPage. -/
def c5State : BufState :=
  ⟨1, [⟨0, true, some 3, 4, 2, false, true⟩], [9], [((3, 4), 0)], 0, [], [], [], [], [], 0⟩

/-- Witness for c5_unPinPage_spec: on c5State, unPinPage of page (3,4) with
dirty = true returns OK, decrements pinCnt from 2 to 1 and sets the dirty
bit. -/
theorem c5_unPinPage_spec_witness :
    Status.OK = Status.OK ∧
    (⟨1, [⟨0, true, some 3, 4, 1, true, true⟩], [9], [((3, 4), 0)], 0, [], [], [], [], [], 0⟩ : BufState) =
    {c5State with bufTable := c5State.bufTable.set 0 ⟨0, true, some 3, 4, 1, true, true⟩} := by
  exact (c5_unPinPage_spec c5State 3 4 true Status.OK
    ⟨1, [⟨0, true, some 3, 4, 1, true, true⟩], [9], [((3, 4), 0)], 0, [], [], [], [], [], 0⟩
    (by decide)).2.2.1 0 ⟨0, true, some 3, 4, 2, false, true⟩ rfl rfl (by decide)

/- ------------------------------------------------------------------ -/
/- C2: coherence of the residency index and the frame table.           -/
/- ------------------------------------------------------------------ -/

/-- Well-formedness of the frame table: the descriptor at index i carries
frameNo = i (established by the constructor and preserved everywhere) and a
valid frame references a file. -/
def framesWfP (bt : List BufDesc) : Prop :=
  ∀ i d, bt.get? i = some d → d.frameNo = i ∧ (d.valid = true → d.file.isSome = true)

/-- Forward coherence: every valid frame is indexed under its identity. -/
def cohFwdP (bt : List BufDesc) (ht : HashT) : Prop :=
  ∀ i d f2, bt.get? i = some d → d.valid = true → d.file = some f2 →
    hfind ht (f2, d.pageNo) = some i

/-- Backward coherence: every index entry refers to a valid frame whose file
and page number match the key. -/
def cohBwdP (bt : List BufDesc) (ht : HashT) : Prop :=
  ∀ e, e ∈ ht → ∃ d, bt.get? e.2 = some d ∧ d.valid = true ∧
    d.file = some e.1.1 ∧ d.pageNo = e.1.2

/-- The buffer-manager invariant: sized frame table, well-formed descriptors
and a coherent residency index. -/
def bufInvP (s : BufState) : Prop :=
  s.bufTable.length = s.numBufs ∧ framesWfP s.bufTable ∧
  cohFwdP s.bufTable s.hashTable ∧ cohBwdP s.bufTable s.hashTable

/-- Executable version of the buffer-manager invariant. -/
def bufInvB (s : BufState) : Bool :=
  (s.bufTable.length == s.numBufs) &&
  ((List.range s.bufTable.length).all fun i =>
    match s.bufTable.get? i with
    | some d =>
      (d.frameNo == i) &&
      (!d.valid ||
        match d.file with
        | some f2 => hfind s.hashTable (f2, d.pageNo) == some i
        | none => false)
    | none => true) &&
  (s.hashTable.all fun e =>
    match s.bufTable.get? e.2 with
    | some d => d.valid && (d.file == some e.1.1) && (d.pageNo == e.1.2)
    | none => false)

theorem bufInvB_iff (s : BufState) : bufInvB s = true ↔ bufInvP s := by
  rw [bufInvB, bufInvP]
  simp only [Bool.and_eq_true, beq_iff_eq, List.all_eq_true, List.mem_range,
    Bool.or_eq_true, Bool.not_eq_true']
  constructor
  · rintro ⟨⟨hlen, hframes⟩, hbwd⟩
    refine ⟨hlen, ?_, ?_, ?_⟩
    · intro i d hd
      by_cases hi : i < s.bufTable.length
      · have hth := hframes i hi
        rw [hd] at hth
        simp only [Bool.and_eq_true, beq_iff_eq, Bool.or_eq_true, Bool.not_eq_true'] at hth
        refine ⟨hth.1, ?_⟩
        intro hv
        rcases hth.2 with h2 | h2
        · rw [hv] at h2; cases h2
        · cases hfi : d.file with
          | none => rw [hfi] at h2; cases h2
          | some f2 => rfl
      · rw [(List.get?_eq_none).mpr (by omega)] at hd; cases hd
    · intro i d f2 hd hv hfi
      have hi : i < s.bufTable.length := (List.get?_eq_some.mp hd).1
      have hth := hframes i hi
      rw [hd] at hth
      simp only [Bool.and_eq_true, beq_iff_eq, Bool.or_eq_true, Bool.not_eq_true'] at hth
      rcases hth.2 with h2 | h2
      · rw [hv] at h2; cases h2
      · rw [hfi] at h2
        simp only [beq_iff_eq] at h2
        exact h2
    · intro e he
      have hth := hbwd e he
      cases hd : s.bufTable.get? e.2 with
      | none => rw [hd] at hth; cases hth
      | some d =>
        rw [hd] at hth
        simp only [Bool.and_eq_true, beq_iff_eq] at hth
        exact ⟨d, rfl, hth.1.1, hth.1.2, hth.2⟩
  · rintro ⟨hlen, hwf, hfwd, hbwd⟩
    refine ⟨⟨hlen, ?_⟩, ?_⟩
    · intro i hi
      cases hd : s.bufTable.get? i with
      | none => rfl
      | some d =>
        simp only [Bool.and_eq_true, beq_iff_eq, Bool.or_eq_true, Bool.not_eq_true']
        refine ⟨(hwf i d hd).1, ?_⟩
        cases hv : d.valid with
        | false => exact Or.inl rfl
        | true =>
          right
          have hsome := (hwf i d hd).2 hv
          cases hfi : d.file with
          | none => rw [hfi] at hsome; cases hsome
          | some f2 =>
            have hth := hfwd i d f2 hd hv hfi
            simp only [hth, beq_self_eq_true]
    · intro e he
      rcases hbwd e he with ⟨d, hd, hv, hfi, hp⟩
      rw [hd]
      simp only [Bool.and_eq_true, beq_iff_eq]
      exact ⟨⟨hv, hfi⟩, hp⟩

/-- The invariant over the raw components, convenient for lemmas that rewrite
the table and the index. -/
def btInvP (n : Nat) (bt : List BufDesc) (ht : HashT) : Prop :=
  bt.length = n ∧ framesWfP bt ∧ cohFwdP bt ht ∧ cohBwdP bt ht

theorem bufInvP_def (s : BufState) : bufInvP s ↔ btInvP s.numBufs s.bufTable s.hashTable :=
  Iff.rfl

/-- Replacing a descriptor by one with the same identity fields (frameNo,
valid, file, pageNo) preserves the invariant. -/
theorem btInv_set_same (n : Nat) (bt : List BufDesc) (ht : HashT) (i : Nat) (d d1 : BufDesc)
    (hInv : btInvP n bt ht) (hd : bt.get? i = some d)
    (hfr : d1.frameNo = d.frameNo) (hv : d1.valid = d.valid)
    (hfi : d1.file = d.file) (hp : d1.pageNo = d.pageNo) :
    btInvP n (bt.set i d1) ht := by
  obtain ⟨hlen, hwf, hfwd, hbwd⟩ := hInv
  have hi : i < bt.length := (List.get?_eq_some.mp hd).1
  refine ⟨by rw [List.length_set]; exact hlen, ?_, ?_, ?_⟩
  · intro j dj hdj
    by_cases hij : i = j
    · subst hij
      rw [get?_set_self _ _ _ hi] at hdj
      cases hdj
      have hth := hwf i d hd
      refine ⟨by rw [hfr]; exact hth.1, ?_⟩
      intro hval
      rw [hv] at hval
      rw [hfi]
      exact hth.2 hval
    · rw [get?_set_ne _ _ _ _ hij] at hdj
      exact hwf j dj hdj
  · intro j dj f2 hdj hval hfij
    by_cases hij : i = j
    · subst hij
      rw [get?_set_self _ _ _ hi] at hdj
      cases hdj
      rw [hv] at hval
      rw [hfi] at hfij
      rw [hp]
      exact hfwd i d f2 hd hval hfij
    · rw [get?_set_ne _ _ _ _ hij] at hdj
      exact hfwd j dj f2 hdj hval hfij
  · intro e he
    rcases hbwd e he with ⟨dj, hdj, hval, hfij, hpj⟩
    by_cases hij : i = e.2
    · subst hij
      rw [hd] at hdj
      cases hdj
      exact ⟨d1, get?_set_self _ _ _ hi, by rw [hv]; exact hval,
             by rw [hfi]; exact hfij, by rw [hp]; exact hpj⟩
    · exact ⟨dj, (get?_set_ne _ _ _ _ hij).trans hdj, hval, hfij, hpj⟩

/-- Replacing an invalid descriptor by another invalid descriptor with the
same frameNo preserves the invariant (used by Clear on invalid frames). -/
theorem btInv_set_invalid (n : Nat) (bt : List BufDesc) (ht : HashT) (i : Nat) (d d1 : BufDesc)
    (hInv : btInvP n bt ht) (hd : bt.get? i = some d)
    (hv : d.valid = false) (hd1v : d1.valid = false) (hd1fr : d1.frameNo = d.frameNo) :
    btInvP n (bt.set i d1) ht := by
  obtain ⟨hlen, hwf, hfwd, hbwd⟩ := hInv
  have hi : i < bt.length := (List.get?_eq_some.mp hd).1
  refine ⟨by rw [List.length_set]; exact hlen, ?_, ?_, ?_⟩
  · intro j dj hdj
    by_cases hij : i = j
    · subst hij
      rw [get?_set_self _ _ _ hi] at hdj
      cases hdj
      refine ⟨by rw [hd1fr]; exact (hwf i d hd).1, ?_⟩
      intro hval
      rw [hd1v] at hval
      cases hval
    · rw [get?_set_ne _ _ _ _ hij] at hdj
      exact hwf j dj hdj
  · intro j dj f2 hdj hval hfij
    by_cases hij : i = j
    · subst hij
      rw [get?_set_self _ _ _ hi] at hdj
      cases hdj
      rw [hd1v] at hval
      cases hval
    · rw [get?_set_ne _ _ _ _ hij] at hdj
      exact hfwd j dj f2 hdj hval hfij
  · intro e he
    rcases hbwd e he with ⟨dj, hdj, hval, hfij, hpj⟩
    by_cases hij : i = e.2
    · subst hij
      rw [hd] at hdj
      cases hdj
      rw [hv] at hval
      cases hval
    · exact ⟨dj, (get?_set_ne _ _ _ _ hij).trans hdj, hval, hfij, hpj⟩

/-- Evicting a valid frame: invalidating its descriptor and dropping its key
from the index preserves the invariant (the Clear of allocBuf's victim, the
Clear of disposePage and the invalidation of flushFile). -/
theorem btInv_erase (n : Nat) (bt : List BufDesc) (ht : HashT) (i : Nat) (d d1 : BufDesc)
    (f2 : Nat) (hInv : btInvP n bt ht) (hd : bt.get? i = some d)
    (hv : d.valid = true) (hfi : d.file = some f2)
    (hd1v : d1.valid = false) (hd1fr : d1.frameNo = d.frameNo) :
    btInvP n (bt.set i d1) (hdrop ht (f2, d.pageNo)) := by
  obtain ⟨hlen, hwf, hfwd, hbwd⟩ := hInv
  have hi : i < bt.length := (List.get?_eq_some.mp hd).1
  refine ⟨by rw [List.length_set]; exact hlen, ?_, ?_, ?_⟩
  · intro j dj hdj
    by_cases hij : i = j
    · subst hij
      rw [get?_set_self _ _ _ hi] at hdj
      cases hdj
      refine ⟨by rw [hd1fr]; exact (hwf i d hd).1, ?_⟩
      intro hval
      rw [hd1v] at hval
      cases hval
    · rw [get?_set_ne _ _ _ _ hij] at hdj
      exact hwf j dj hdj
  · intro j dj f3 hdj hval hfij
    by_cases hij : i = j
    · subst hij
      rw [get?_set_self _ _ _ hi] at hdj
      cases hdj
      rw [hd1v] at hval
      cases hval
    · rw [get?_set_ne _ _ _ _ hij] at hdj
      have hkey : ((f3 : Nat), dj.pageNo) ≠ ((f2 : Nat), d.pageNo) := by
        intro hk
        have h1 := hfwd j dj f3 hdj hval hfij
        have h2 := hfwd i d f2 hd hv hfi
        rw [hk] at h1
        rw [h1] at h2
        cases h2
        exact hij rfl
      rw [hfind_hdrop_ne _ _ _ hkey]
      exact hfwd j dj f3 hdj hval hfij
  · intro e he
    have hmem := mem_hdrop ht (f2, d.pageNo) e he
    rcases hbwd e hmem.1 with ⟨dj, hdj, hval, hfij, hpj⟩
    by_cases hij : i = e.2
    · exfalso
      subst hij
      rw [hd] at hdj
      cases hdj
      apply hmem.2
      have hfe : f2 = e.1.1 := by
        rw [hfi] at hfij
        injection hfij with h
      rw [hpj, hfe]
    · exact ⟨dj, (get?_set_ne _ _ _ _ hij).trans hdj, hval, hfij, hpj⟩

/-- Installing a page in an invalid frame: setting the descriptor to a valid
one for key (f2, p) and prepending that entry to the index preserves the
invariant when the key was absent. -/
theorem btInv_install (n : Nat) (bt : List BufDesc) (ht : HashT) (i : Nat) (d d1 : BufDesc)
    (f2 : Nat) (p : Int) (hInv : btInvP n bt ht) (hd : bt.get? i = some d)
    (hv : d.valid = false) (habs : hfind ht (f2, p) = none)
    (hd1 : d1.valid = true) (hd1f : d1.file = some f2) (hd1p : d1.pageNo = p)
    (hd1fr : d1.frameNo = i) :
    btInvP n (bt.set i d1) (((f2, p), i) :: ht) := by
  obtain ⟨hlen, hwf, hfwd, hbwd⟩ := hInv
  have hi : i < bt.length := (List.get?_eq_some.mp hd).1
  refine ⟨by rw [List.length_set]; exact hlen, ?_, ?_, ?_⟩
  · intro j dj hdj
    by_cases hij : i = j
    · subst hij
      rw [get?_set_self _ _ _ hi] at hdj
      cases hdj
      exact ⟨hd1fr, fun _ => by rw [hd1f]; rfl⟩
    · rw [get?_set_ne _ _ _ _ hij] at hdj
      exact hwf j dj hdj
  · intro j dj f3 hdj hval hfij
    by_cases hij : i = j
    · subst hij
      rw [get?_set_self _ _ _ hi] at hdj
      cases hdj
      rw [hd1f] at hfij
      cases hfij
      rw [hd1p]
      rw [hfind, if_pos rfl]
    · rw [get?_set_ne _ _ _ _ hij] at hdj
      have hkey : ((f3 : Nat), dj.pageNo) ≠ ((f2 : Nat), p) := by
        intro hk
        have h1 := hfwd j dj f3 hdj hval hfij
        rw [hk, habs] at h1
        cases h1
      rw [hfind, if_neg (fun hk => hkey hk.symm)]
      exact hfwd j dj f3 hdj hval hfij
  · intro e he
    rcases List.mem_cons.mp he with he2 | he2
    · subst he2
      exact ⟨d1, get?_set_self _ _ _ hi, hd1, by rw [hd1f], by rw [hd1p]⟩
    · rcases hbwd e he2 with ⟨dj, hdj, hval, hfij, hpj⟩
      by_cases hij : i = e.2
      · exfalso
        subst hij
        rw [hd] at hdj
        cases hdj
        rw [hv] at hval
        cases hval
      · exact ⟨dj, (get?_set_ne _ _ _ _ hij).trans hdj, hval, hfij, hpj⟩

theorem hfind_hdrop_none (ht : HashT) (k k2 : HKey) (h : hfind ht k2 = none) :
    hfind (hdrop ht k) k2 = none := by
  by_cases hk : k2 = k
  · subst hk; exact hfind_hdrop_self ht k2
  · rw [hfind_hdrop_ne ht k k2 hk]; exact h

/-- Facts about every run of the allocBuf clock loop: the invariant is
preserved, the environment fields are untouched (in particular no disk read
is issued), absent keys stay absent, and on OK the returned frame is a
cleared (invalid) descriptor stored at its own index. -/
theorem allocBufLoop_props : ∀ (fuel : Nat) (s : BufState) (np : Nat) (st : Status)
    (fr : Nat) (s2 : BufState),
    bufInvP s → allocBufLoop s np fuel = some (st, fr, s2) →
    bufInvP s2 ∧ s2.numBufs = s.numBufs ∧ s2.readLog = s.readLog ∧
    s2.nextAlloc = s.nextAlloc ∧ s2.bufPool = s.bufPool ∧
    s2.readErrs = s.readErrs ∧ s2.writeErrs = s.writeErrs ∧
    (∀ k, hfind s.hashTable k = none → hfind s2.hashTable k = none) ∧
    (st = Status.OK → ∃ d, s2.bufTable.get? fr = some d ∧ d.valid = false ∧ d.frameNo = fr) := by
  intro fuel
  induction fuel with
  | zero =>
    intro s np st fr s2 _ h
    cases h
  | succ fuel ih =>
    intro s np st fr s2 hInv h
    rw [allocBufLoop] at h
    by_cases hnb : s.numBufs = np
    · rw [if_pos hnb] at h
      simp only [Option.some.injEq, Prod.mk.injEq] at h
      obtain ⟨h1, _, h3⟩ := h
      subst h3
      refine ⟨hInv, rfl, rfl, rfl, rfl, rfl, rfl, fun k hk => hk, ?_⟩
      intro hok
      rw [← h1] at hok
      cases hok
    · rw [if_neg hnb] at h
      simp only [advanceClock] at h
      cases hd2 : s.bufTable.get? ((s.clockHand + 1) % s.numBufs) with
      | none =>
        rw [hd2] at h
        exact Option.noConfusion h
      | some d =>
        rw [hd2] at h
        dsimp only at h
        have hInvT : btInvP s.numBufs s.bufTable s.hashTable := hInv
        have hlt : (s.clockHand + 1) % s.numBufs < s.bufTable.length :=
          (List.get?_eq_some.mp hd2).1
        by_cases hv : d.valid = false
        · rw [if_pos hv] at h
          simp only [Option.some.injEq, Prod.mk.injEq] at h
          obtain ⟨h1, h2, h3⟩ := h
          subst h3
          have hfrNo : d.frameNo = (s.clockHand + 1) % s.numBufs := (hInv.2.1 _ _ hd2).1
          refine ⟨?_, rfl, rfl, rfl, rfl, rfl, rfl, fun k hk => hk, ?_⟩
          · exact btInv_set_invalid s.numBufs s.bufTable s.hashTable _ d d.Clear hInvT hd2 hv rfl rfl
          · intro _
            refine ⟨d.Clear, ?_, rfl, ?_⟩
            · rw [← h2, hfrNo]
              exact get?_set_self _ _ _ hlt
            · rw [← h2]
              rfl
        · rw [if_neg hv] at h
          have hvT : d.valid = true := by
            cases hval : d.valid
            · exact absurd hval hv
            · rfl
          by_cases hr : d.refbit = true
          · rw [if_pos hr] at h
            have hInv1 := btInv_set_same s.numBufs s.bufTable s.hashTable
              ((s.clockHand + 1) % s.numBufs) d {d with refbit := false} hInvT hd2 rfl rfl rfl rfl
            rcases ih _ np st fr s2 (by exact hInv1) h with ⟨p1, p2, p3, p4, p5, p6, p7, p8, p9⟩
            exact ⟨p1, p2, p3, p4, p5, p6, p7, p8, p9⟩
          · rw [if_neg hr] at h
            by_cases hp : d.pinCnt > 0
            · rw [if_pos hp] at h
              rcases ih _ (np + 1) st fr s2 (by exact hInv) h with ⟨p1, p2, p3, p4, p5, p6, p7, p8, p9⟩
              exact ⟨p1, p2, p3, p4, p5, p6, p7, p8, p9⟩
            · rw [if_neg hp] at h
              cases hfi : d.file with
              | none =>
                rw [hfi] at h
                exact Option.noConfusion h
              | some f =>
                rw [hfi] at h
                dsimp only at h
                have hfrNo : d.frameNo = (s.clockHand + 1) % s.numBufs := (hInv.2.1 _ _ hd2).1
                by_cases hdirty : d.dirty = true
                · rw [if_pos hdirty] at h
                  simp only [fileWritePage] at h
                  by_cases hmem : ((f : Nat), d.pageNo) ∈ s.writeErrs
                  · rw [if_pos hmem] at h
                    dsimp only at h
                    simp only [Option.some.injEq, Prod.mk.injEq] at h
                    obtain ⟨h1, _, h3⟩ := h
                    subst h3
                    refine ⟨hInv, rfl, rfl, rfl, rfl, rfl, rfl, fun k hk => hk, ?_⟩
                    intro hok
                    rw [← h1] at hok
                    cases hok
                  · rw [if_neg hmem] at h
                    dsimp only at h
                    simp only [hremove] at h
                    by_cases hfound : (hfind s.hashTable (f, d.pageNo)).isSome = true
                    · rw [if_pos hfound] at h
                      dsimp only at h
                      simp only [Option.some.injEq, Prod.mk.injEq] at h
                      obtain ⟨h1, h2, h3⟩ := h
                      subst h3
                      have hInvMid : btInvP s.numBufs
                          (s.bufTable.set ((s.clockHand + 1) % s.numBufs) {d with file := some f, dirty := true})
                          s.hashTable :=
                        btInv_set_same s.numBufs s.bufTable s.hashTable _ d
                          {d with file := some f, dirty := true} hInvT hd2 rfl rfl hfi.symm rfl
                      have hdMid : (s.bufTable.set ((s.clockHand + 1) % s.numBufs)
                          {d with file := some f, dirty := true}).get? ((s.clockHand + 1) % s.numBufs) =
                          some {d with file := some f, dirty := true} :=
                        get?_set_self _ _ _ hlt
                      refine ⟨?_, rfl, rfl, rfl, rfl, rfl, rfl, ?_, ?_⟩
                      · exact btInv_erase s.numBufs _ s.hashTable _
                          {d with file := some f, dirty := true}
                          (({d with file := some f, dirty := true} : BufDesc).Clear)
                          f hInvMid hdMid hvT rfl rfl rfl
                      · intro k hk
                        exact hfind_hdrop_none _ _ _ hk
                      · intro _
                        refine ⟨d.Clear, ?_, rfl, ?_⟩
                        · rw [← h2, hfrNo]
                          exact get?_set_self _ _ _ (by rw [List.length_set]; exact hlt)
                        · rw [← h2]
                          rfl
                    · rw [if_neg hfound] at h
                      dsimp only at h
                      simp only [Option.some.injEq, Prod.mk.injEq] at h
                      obtain ⟨h1, _, h3⟩ := h
                      subst h3
                      refine ⟨?_, rfl, rfl, rfl, rfl, rfl, rfl, fun k hk => hk, ?_⟩
                      · exact btInv_set_same s.numBufs s.bufTable s.hashTable _ d
                          {d with file := some f, dirty := true} hInvT hd2 rfl rfl hfi.symm rfl
                      · intro hok
                        rw [← h1] at hok
                        cases hok
                · rw [if_neg hdirty] at h
                  simp only [hremove] at h
                  by_cases hfound : (hfind s.hashTable (f, d.pageNo)).isSome = true
                  · rw [if_pos hfound] at h
                    dsimp only at h
                    simp only [Option.some.injEq, Prod.mk.injEq] at h
                    obtain ⟨h1, h2, h3⟩ := h
                    subst h3
                    refine ⟨?_, rfl, rfl, rfl, rfl, rfl, rfl, ?_, ?_⟩
                    · exact btInv_erase s.numBufs s.bufTable s.hashTable _ d
                        d.Clear f hInvT hd2 hvT hfi rfl rfl
                    · intro k hk
                      exact hfind_hdrop_none _ _ _ hk
                    · intro _
                      refine ⟨d.Clear, ?_, rfl, ?_⟩
                      · rw [← h2, hfrNo]
                        exact get?_set_self _ _ _ hlt
                      · rw [← h2]
                        rfl
                  · rw [if_neg hfound] at h
                    dsimp only at h
                    simp only [Option.some.injEq, Prod.mk.injEq] at h
                    obtain ⟨h1, _, h3⟩ := h
                    subst h3
                    refine ⟨hInv, rfl, rfl, rfl, rfl, rfl, rfl, fun k hk => hk, ?_⟩
                    intro hok
                    rw [← h1] at hok
                    cases hok

/-- Invariant preservation for readPage (any status on the hit path; the OK
requirement rules out the partially-performed failure paths). -/
theorem readPage_inv (s : BufState) (f : Nat) (p : Int) (fr : Nat) (s2 : BufState)
    (hInv : bufInvP s) (h : readPage s f p = some (Status.OK, fr, s2)) :
    bufInvP s2 := by
  rw [readPage] at h
  cases hl : hfind s.hashTable (f, p) with
  | some frame =>
    rw [hl] at h
    dsimp only at h
    cases hd : s.bufTable.get? frame with
    | none =>
      rw [hd] at h
      exact Option.noConfusion h
    | some d =>
      rw [hd] at h
      dsimp only at h
      simp only [Option.some.injEq, Prod.mk.injEq] at h
      obtain ⟨_, h3⟩ := h
      rw [← h3.2]
      exact btInv_set_same s.numBufs s.bufTable s.hashTable frame d
        {d with refbit := true, pinCnt := d.pinCnt + 1} hInv hd rfl rfl rfl rfl
  | none =>
    rw [hl] at h
    dsimp only at h
    cases ha : allocBuf s with
    | none =>
      rw [ha] at h
      exact Option.noConfusion h
    | some r =>
      obtain ⟨ast, frame, s1⟩ := r
      rw [ha] at h
      dsimp only at h
      by_cases hast : ast = Status.OK
      · rw [if_pos hast] at h
        subst hast
        rcases allocBufLoop_props _ s 0 _ _ _ hInv ha with ⟨p1, p2, p3, p4, p5, p6, p7, p8, p9⟩
        rcases p9 rfl with ⟨dc, hdc, hdcv, hdcfr⟩
        simp only [fileReadPage] at h
        by_cases hre : (f, p) ∈ s1.readErrs
        · rw [if_pos hre] at h
          dsimp only at h
          simp only [Option.some.injEq, Prod.mk.injEq] at h
          exact Status.noConfusion h.1
        · rw [if_neg hre] at h
          dsimp only at h
          simp only [hinsert] at h
          have habs1 : hfind s1.hashTable (f, p) = none := p8 (f, p) hl
          rw [habs1] at h
          rw [if_neg (by simp)] at h
          dsimp only at h
          rw [hdc] at h
          dsimp only at h
          simp only [Option.some.injEq, Prod.mk.injEq] at h
          obtain ⟨_, h3⟩ := h
          rw [← h3.2]
          exact btInv_install s1.numBufs s1.bufTable s1.hashTable frame dc
            {dc.Set f p with frameNo := frame} f p p1 hdc hdcv habs1 rfl rfl rfl rfl
      · rw [if_neg hast] at h
        simp only [Option.some.injEq, Prod.mk.injEq] at h
        exact absurd h.1 hast

/-- Invariant preservation for allocPage. -/
theorem allocPage_inv (s : BufState) (f : Nat) (pg : Int) (fr : Nat) (s2 : BufState)
    (hInv : bufInvP s) (h : allocPage s f = some (Status.OK, pg, fr, s2)) :
    bufInvP s2 := by
  rw [allocPage] at h
  dsimp only at h
  cases ha : allocBuf {s with nextAlloc := s.nextAlloc + 1} with
  | none =>
    rw [ha] at h
    exact Option.noConfusion h
  | some r =>
    obtain ⟨ast, frame, s1⟩ := r
    rw [ha] at h
    dsimp only at h
    by_cases hast : ast = Status.OK
    · rw [if_pos hast] at h
      subst hast
      have hInv0 : bufInvP {s with nextAlloc := s.nextAlloc + 1} := hInv
      rcases allocBufLoop_props _ _ 0 _ _ _ hInv0 ha with ⟨p1, p2, p3, p4, p5, p6, p7, p8, p9⟩
      rcases p9 rfl with ⟨dc, hdc, hdcv, hdcfr⟩
      simp only [hinsert] at h
      by_cases hfound : (hfind s1.hashTable (f, s.nextAlloc)).isSome = true
      · rw [if_pos hfound] at h
        dsimp only at h
        simp only [Option.some.injEq, Prod.mk.injEq] at h
        exact Status.noConfusion h.1
      · rw [if_neg hfound] at h
        dsimp only at h
        rw [hdc] at h
        dsimp only at h
        simp only [Option.some.injEq, Prod.mk.injEq] at h
        obtain ⟨_, _, h3⟩ := h
        rw [← h3.2]
        have habs1 : hfind s1.hashTable (f, s.nextAlloc) = none := by
          cases hfd : hfind s1.hashTable (f, s.nextAlloc) with
          | none => rfl
          | some v =>
            exfalso
            apply hfound
            rw [hfd]
            rfl
        exact btInv_install s1.numBufs s1.bufTable s1.hashTable frame dc
          (dc.Set f s.nextAlloc) f s.nextAlloc p1 hdc hdcv habs1 rfl rfl rfl hdcfr
    · rw [if_neg hast] at h
      simp only [Option.some.injEq, Prod.mk.injEq] at h
      exact absurd h.1 hast

/-- Invariant preservation for unPinPage (any status). -/
theorem unPinPage_inv (s : BufState) (f : Nat) (p : Int) (dirty : Bool) (st : Status)
    (s2 : BufState) (hInv : bufInvP s) (h : unPinPage s f p dirty = some (st, s2)) :
    bufInvP s2 := by
  rw [unPinPage] at h
  cases hl : hfind s.hashTable (f, p) with
  | none =>
    rw [hl] at h
    simp only [Option.some.injEq, Prod.mk.injEq] at h
    rw [← h.2]
    exact hInv
  | some frame =>
    rw [hl] at h
    dsimp only at h
    cases hd : s.bufTable.get? frame with
    | none =>
      rw [hd] at h
      exact Option.noConfusion h
    | some d =>
      rw [hd] at h
      dsimp only at h
      by_cases hpin : d.pinCnt = 0
      · rw [if_pos hpin] at h
        simp only [Option.some.injEq, Prod.mk.injEq] at h
        rw [← h.2]
        exact hInv
      · rw [if_neg hpin] at h
        simp only [Option.some.injEq, Prod.mk.injEq] at h
        rw [← h.2]
        exact btInv_set_same s.numBufs s.bufTable s.hashTable frame d
          {d with dirty := if dirty then true else d.dirty, pinCnt := d.pinCnt - 1}
          hInv hd rfl rfl rfl rfl

/-- Invariant preservation for disposePage. -/
theorem disposePage_inv (s : BufState) (f : Nat) (p : Int) (st : Status) (s2 : BufState)
    (hInv : bufInvP s) (h : disposePage s f p = (st, s2)) : bufInvP s2 := by
  rw [disposePage] at h
  cases hl : hfind s.hashTable (f, p) with
  | none =>
    rw [hl] at h
    simp only [hremove] at h
    rw [hl] at h
    rw [if_neg (by simp)] at h
    simp only [Prod.mk.injEq] at h
    rw [← h.2]
    exact hInv
  | some frame =>
    rw [hl] at h
    dsimp only at h
    rcases hInv.2.2.2 ((f, p), frame) (mem_of_hfind _ _ _ hl) with ⟨d, hd, hdv, hdf, hdp⟩
    rw [hd] at h
    dsimp only at h
    simp only [hremove] at h
    rw [hl] at h
    simp only [Option.isSome_some] at h
    rw [if_pos trivial] at h
    simp only [Prod.mk.injEq] at h
    rw [← h.2]
    have hdp2 : d.pageNo = p := hdp
    have hdf2 : d.file = some f := hdf
    have hkey : ((f : Nat), p) = ((f : Nat), d.pageNo) := by rw [hdp2]
    rw [hkey]
    exact btInv_erase s.numBufs s.bufTable s.hashTable frame d d.Clear f hInv hd hdv hdf2 rfl rfl

/-- Invariant preservation for the flushFile loop (any status). -/
theorem flushLoop_inv : ∀ (cnt : Nat) (s : BufState) (f : Nat) (i : Nat) (st : Status)
    (s2 : BufState), bufInvP s → flushLoop f s i cnt = some (st, s2) → bufInvP s2 := by
  intro cnt
  induction cnt with
  | zero =>
    intro s f i st s2 hInv h
    rw [flushLoop] at h
    simp only [Option.some.injEq, Prod.mk.injEq] at h
    rw [← h.2]
    exact hInv
  | succ cnt ih =>
    intro s f i st s2 hInv h
    rw [flushLoop] at h
    cases hd : s.bufTable.get? i with
    | none =>
      rw [hd] at h
      exact Option.noConfusion h
    | some d =>
      rw [hd] at h
      dsimp only at h
      by_cases hc1 : d.valid = true ∧ d.file = some f
      · rw [if_pos hc1] at h
        by_cases hpin : d.pinCnt > 0
        · rw [if_pos hpin] at h
          simp only [Option.some.injEq, Prod.mk.injEq] at h
          rw [← h.2]
          exact hInv
        · rw [if_neg hpin] at h
          by_cases hdirty : d.dirty = true
          · rw [if_pos hdirty] at h
            simp only [fileWritePage] at h
            by_cases hw : ((f : Nat), d.pageNo) ∈ s.writeErrs
            · rw [if_pos hw] at h
              dsimp only at h
              simp only [Option.some.injEq, Prod.mk.injEq] at h
              rw [← h.2]
              exact hInv
            · rw [if_neg hw] at h
              dsimp only at h
              refine ih _ f (i + 1) st s2 ?_ h
              exact btInv_erase s.numBufs s.bufTable s.hashTable i d
                {d with dirty := false, file := none, pageNo := -1, valid := false} f
                hInv hd hc1.1 hc1.2 rfl rfl
          · rw [if_neg hdirty] at h
            refine ih _ f (i + 1) st s2 ?_ h
            exact btInv_erase s.numBufs s.bufTable s.hashTable i d
              {d with file := none, pageNo := -1, valid := false} f
              hInv hd hc1.1 hc1.2 rfl rfl
      · rw [if_neg hc1] at h
        by_cases hc2 : d.valid = false ∧ d.file = some f
        · rw [if_pos hc2] at h
          simp only [Option.some.injEq, Prod.mk.injEq] at h
          rw [← h.2]
          exact hInv
        · rw [if_neg hc2] at h
          exact ih _ f (i + 1) st s2 hInv h

/-- The buffer-manager operations of the claim, as one step relation. -/
inductive BufOp where
  | opReadPage (f : Nat) (p : Int)
  | opAllocPage (f : Nat)
  | opUnPinPage (f : Nat) (p : Int) (dirty : Bool)
  | opDisposePage (f : Nat) (p : Int)
  | opFlushFile (f : Nat)
  | opAllocBuf
  deriving DecidableEq, Repr

/-- One buffer-manager operation, dropping the outputs other than the state. -/
def runOp (s : BufState) : BufOp → Option (Status × BufState)
  | .opReadPage f p => (readPage s f p).map (fun r => (r.1, r.2.2))
  | .opAllocPage f => (allocPage s f).map (fun r => (r.1, r.2.2.2))
  | .opUnPinPage f p dirty => unPinPage s f p dirty
  | .opDisposePage f p => some (disposePage s f p)
  | .opFlushFile f => flushFile s f
  | .opAllocBuf => (allocBuf s).map (fun r => (r.1, r.2.2))

/-- C2: after every buffer-manager operation (readPage, allocPage, unPinPage,
disposePage, flushFile, allocBuf) that returns OK from an invariant state,
the residency index and the frame table are coherent: every valid frame f
has an index entry (f.file, f.pageNo) mapped to f.frameNo, and every index
entry refers to a valid frame whose file and pageNo match the key. -/
theorem c2_residency_coherence (s : BufState) (op : BufOp) (s2 : BufState)
    (hInv : bufInvB s = true) (h : runOp s op = some (Status.OK, s2)) :
    bufInvB s2 = true ∧
    (∀ i d f2, s2.bufTable.get? i = some d → d.valid = true → d.file = some f2 →
      hfind s2.hashTable (f2, d.pageNo) = some d.frameNo) ∧
    (∀ e, e ∈ s2.hashTable → ∃ d, s2.bufTable.get? e.2 = some d ∧ d.valid = true ∧
      d.file = some e.1.1 ∧ d.pageNo = e.1.2) := by
  have hInvP : bufInvP s := (bufInvB_iff s).mp hInv
  have hInv2 : bufInvP s2 := by
    cases op with
    | opReadPage f p =>
      simp only [runOp, Option.map_eq_some'] at h
      rcases h with ⟨⟨st, fr, s3⟩, hr, heq⟩
      simp only [Prod.mk.injEq] at heq
      rw [heq.1] at hr
      rw [← heq.2]
      exact readPage_inv s f p fr s3 hInvP hr
    | opAllocPage f =>
      simp only [runOp, Option.map_eq_some'] at h
      rcases h with ⟨⟨st, pg, fr, s3⟩, hr, heq⟩
      simp only [Prod.mk.injEq] at heq
      rw [heq.1] at hr
      rw [← heq.2]
      exact allocPage_inv s f pg fr s3 hInvP hr
    | opUnPinPage f p dirty =>
      simp only [runOp] at h
      exact unPinPage_inv s f p dirty Status.OK s2 hInvP h
    | opDisposePage f p =>
      simp only [runOp, Option.some.injEq] at h
      exact disposePage_inv s f p Status.OK s2 hInvP h
    | opFlushFile f =>
      simp only [runOp, flushFile] at h
      exact flushLoop_inv s.numBufs s f 0 Status.OK s2 hInvP h
    | opAllocBuf =>
      simp only [runOp, Option.map_eq_some'] at h
      rcases h with ⟨⟨st, fr, s3⟩, hr, heq⟩
      simp only [Prod.mk.injEq] at heq
      rw [← heq.2]
      exact (allocBufLoop_props _ s 0 st fr s3 hInvP hr).1
  refine ⟨(bufInvB_iff s2).mpr hInv2, ?_, hInv2.2.2.2⟩
  intro i d f2 hd hv hf2
  have hth := hInv2.2.2.1 i d f2 hd hv hf2
  rw [(hInv2.2.1 i d hd).1]
  exact hth

/-- Invariant one-frame start state for the C2 witness: an empty pool. -/
def c2State : BufState :=
  ⟨1, [⟨0, false, none, -1, 0, false, false⟩], [7], [], 0, [], [], [], [], [], 0⟩

/-- Witness for c2_residency_coherence: reading page (5,2) into the empty
one-frame pool succeeds and the resulting state satisfies the executable
invariant. -/
theorem c2_residency_coherence_witness :
    bufInvB ⟨1, [⟨0, true, some 5, 2, 1, false, true⟩], [0], [((5, 2), 0)], 0, [], [], [], [(5, 2)], [], 0⟩ = true :=
  (c2_residency_coherence c2State (BufOp.opReadPage 5 2)
    ⟨1, [⟨0, true, some 5, 2, 1, false, true⟩], [0], [((5, 2), 0)], 0, [], [], [], [(5, 2)], [], 0⟩
    (by decide) (by decide)).1

/- ------------------------------------------------------------------ -/
/- C3: readPage.                                                       -/
/- ------------------------------------------------------------------ -/

/-- C3: readPage on a residency hit performs no disk read and changes only
the holding frame's refbit (set true) and pinCnt (incremented); on a miss it
obtains a frame from allocBuf, reads the page from disk exactly once (one
entry appended to the read log, allocBuf itself never reads), inserts
(file, pageNo) into the index and initialises the descriptor with pinCnt = 1,
dirty = false, refbit = 1; in either OK case the returned frame holds the
requested page with pinCnt at least 1, pinned for the caller. -/
theorem c3_readPage_spec (s : BufState) (f : Nat) (p : Int) (fr : Nat) (s2 : BufState)
    (hInv : bufInvB s = true) (h : readPage s f p = some (Status.OK, fr, s2)) :
    (∀ fr0, hfind s.hashTable (f, p) = some fr0 → fr = fr0 ∧
      ∃ d, s.bufTable.get? fr0 = some d ∧
        s2 = {s with bufTable := s.bufTable.set fr0 {d with refbit := true, pinCnt := d.pinCnt + 1}}) ∧
    (hfind s.hashTable (f, p) = none →
      s2.readLog = s.readLog ++ [(f, p)] ∧
      hfind s2.hashTable (f, p) = some fr ∧
      ∃ d2, s2.bufTable.get? fr = some d2 ∧ d2.valid = true ∧ d2.file = some f ∧
        d2.pageNo = p ∧ d2.pinCnt = 1 ∧ d2.dirty = false ∧ d2.refbit = true ∧ d2.frameNo = fr) ∧
    (∃ d2, s2.bufTable.get? fr = some d2 ∧ d2.valid = true ∧ d2.file = some f ∧
      d2.pageNo = p ∧ d2.pinCnt ≥ 1 ∧ d2.refbit = true) := by
  have hInvP : bufInvP s := (bufInvB_iff s).mp hInv
  rw [readPage] at h
  cases hl : hfind s.hashTable (f, p) with
  | some frame =>
    rw [hl] at h
    dsimp only at h
    rcases hInvP.2.2.2 ((f, p), frame) (mem_of_hfind _ _ _ hl) with ⟨d, hd, hdv, hdf, hdp⟩
    have hdf2 : d.file = some f := hdf
    have hdp2 : d.pageNo = p := hdp
    rw [hd] at h
    dsimp only at h
    simp only [Option.some.injEq, Prod.mk.injEq] at h
    obtain ⟨-, hfr, hs2⟩ := h
    have hlt : frame < s.bufTable.length := (List.get?_eq_some.mp hd).1
    refine ⟨?_, ?_, ?_⟩
    · intro fr0 hl0
      cases hl0
      exact ⟨hfr.symm, d, hd, hs2.symm⟩
    · intro hnone
      exact Option.noConfusion hnone
    · refine ⟨{d with refbit := true, pinCnt := d.pinCnt + 1}, ?_, hdv, hdf2, hdp2, ?_, rfl⟩
      · rw [← hs2, hfr.symm]
        exact get?_set_self _ _ _ hlt
      · exact Nat.le_add_left 1 d.pinCnt
  | none =>
    rw [hl] at h
    dsimp only at h
    cases ha : allocBuf s with
    | none =>
      rw [ha] at h
      exact Option.noConfusion h
    | some r =>
      obtain ⟨ast, frame, s1⟩ := r
      rw [ha] at h
      dsimp only at h
      by_cases hast : ast = Status.OK
      · rw [if_pos hast] at h
        subst hast
        rcases allocBufLoop_props _ s 0 _ _ _ hInvP ha with ⟨p1, p2, p3, p4, p5, p6, p7, p8, p9⟩
        rcases p9 rfl with ⟨dc, hdc, hdcv, hdcfr⟩
        simp only [fileReadPage] at h
        by_cases hre : (f, p) ∈ s1.readErrs
        · rw [if_pos hre] at h
          dsimp only at h
          simp only [Option.some.injEq, Prod.mk.injEq] at h
          exact Status.noConfusion h.1
        · rw [if_neg hre] at h
          dsimp only at h
          simp only [hinsert] at h
          have habs1 : hfind s1.hashTable (f, p) = none := p8 (f, p) hl
          rw [habs1] at h
          rw [if_neg (by simp)] at h
          dsimp only at h
          rw [hdc] at h
          dsimp only at h
          simp only [Option.some.injEq, Prod.mk.injEq] at h
          obtain ⟨-, hfr, hs2⟩ := h
          have hlt : frame < s1.bufTable.length := (List.get?_eq_some.mp hdc).1
          refine ⟨?_, ?_, ?_⟩
          · intro fr0 hl0
            exact Option.noConfusion hl0
          · intro _
            refine ⟨?_, ?_, ?_⟩
            · rw [← hs2]
              dsimp only
              rw [p3]
            · rw [← hs2]
              dsimp only
              rw [hfind, if_pos rfl, ← hfr]
            · refine ⟨{dc.Set f p with frameNo := frame}, ?_, rfl, rfl, rfl, rfl, rfl, rfl, ?_⟩
              · rw [← hs2, ← hfr]
                dsimp only
                exact get?_set_self _ _ _ hlt
              · rw [← hfr]
          · refine ⟨{dc.Set f p with frameNo := frame}, ?_, rfl, rfl, rfl, ?_, rfl⟩
            · rw [← hs2, ← hfr]
              dsimp only
              exact get?_set_self _ _ _ hlt
            · exact Nat.le_refl 1
      · rw [if_neg hast] at h
        simp only [Option.some.injEq, Prod.mk.injEq] at h
        exact absurd h.1 hast

/-- Witness for c3_readPage_spec: the miss read of page (5,2) into the empty
one-frame pool returns frame 0 holding (5,2), pinned once with its reference
bit set. -/
theorem c3_readPage_spec_witness :
    ∃ d2, (⟨1, [⟨0, true, some 5, 2, 1, false, true⟩], [0], [((5, 2), 0)], 0, [], [], [], [(5, 2)], [], 0⟩ : BufState).bufTable.get? 0 = some d2 ∧
      d2.valid = true ∧ d2.file = some 5 ∧ d2.pageNo = 2 ∧ d2.pinCnt ≥ 1 ∧ d2.refbit = true :=
  (c3_readPage_spec c2State 5 2 0
    ⟨1, [⟨0, true, some 5, 2, 1, false, true⟩], [0], [((5, 2), 0)], 0, [], [], [], [(5, 2)], [], 0⟩
    (by decide) (by decide)).2.2

/- ------------------------------------------------------------------ -/
/- C4: flushFile.                                                      -/
/- ------------------------------------------------------------------ -/

theorem dfind_dwrite_self (dk : DiskT) (k : HKey) (v : Int) :
    dfind (dwrite dk k v) k = v := by
  rw [dwrite, dfind, if_pos rfl]

theorem dfind_dwrite_ne (dk : DiskT) (k k2 : HKey) (v : Int) (h : k2 ≠ k) :
    dfind (dwrite dk k v) k2 = dfind dk k2 := by
  rw [dwrite, dfind, if_neg (fun he => h he.symm)]

/-- Complete characterization of the flushFile loop from index i with cnt
frames left: environment preservation, untouched frames and disk keys, and
the returned status under each configuration of the remaining frames. -/
theorem flushLoop_props : ∀ (cnt : Nat) (s : BufState) (f : Nat) (i : Nat) (st : Status)
    (s2 : BufState), bufInvP s → i + cnt = s.bufTable.length →
    flushLoop f s i cnt = some (st, s2) →
    s2.bufPool = s.bufPool ∧
    s2.writeErrs = s.writeErrs ∧
    (∀ j, j < i → s2.bufTable.get? j = s.bufTable.get? j) ∧
    (∀ k, hfind s.hashTable k = none → hfind s2.hashTable k = none) ∧
    (∀ k, (∀ j d, i ≤ j → s.bufTable.get? j = some d → d.valid = true → d.file = some f →
       ((f : Nat), d.pageNo) ≠ k) → dfind s2.disk k = dfind s.disk k) ∧
    ((∀ j d, i ≤ j → s.bufTable.get? j = some d → ¬(d.valid = false ∧ d.file = some f)) →
     (∀ j d, i ≤ j → s.bufTable.get? j = some d →
       ¬(d.valid = true ∧ d.file = some f ∧ d.dirty = true ∧ (f, d.pageNo) ∈ s.writeErrs)) →
     (∃ j d, i ≤ j ∧ s.bufTable.get? j = some d ∧ d.valid = true ∧ d.file = some f ∧
       0 < d.pinCnt) →
     st = Status.PAGEPINNED) ∧
    ((∀ j d, i ≤ j → s.bufTable.get? j = some d → ¬(d.valid = false ∧ d.file = some f)) →
     (∀ j d, i ≤ j → s.bufTable.get? j = some d →
       ¬(d.valid = true ∧ d.file = some f ∧ 0 < d.pinCnt)) →
     (∃ j d, i ≤ j ∧ s.bufTable.get? j = some d ∧ d.valid = true ∧ d.file = some f ∧
       d.dirty = true ∧ (f, d.pageNo) ∈ s.writeErrs) →
     st = Status.UNIXERR) ∧
    ((∀ j d, i ≤ j → s.bufTable.get? j = some d →
       ¬(d.valid = true ∧ d.file = some f ∧ 0 < d.pinCnt)) →
     (∀ j d, i ≤ j → s.bufTable.get? j = some d →
       ¬(d.valid = true ∧ d.file = some f ∧ d.dirty = true ∧ (f, d.pageNo) ∈ s.writeErrs)) →
     (∃ j d, i ≤ j ∧ s.bufTable.get? j = some d ∧ d.valid = false ∧ d.file = some f) →
     st = Status.BADBUFFER) ∧
    (st = Status.OK →
     (∀ j d, i ≤ j → s2.bufTable.get? j = some d → d.valid = true → d.file ≠ some f) ∧
     (∀ j d, i ≤ j → s.bufTable.get? j = some d → d.valid = true → d.file = some f →
       hfind s2.hashTable (f, d.pageNo) = none ∧
       (d.dirty = true → dfind s2.disk (f, d.pageNo) = s.bufPool.getD j 0))) := by
  intro cnt
  induction cnt with
  | zero =>
    intro s f i st s2 hInv hcnt h
    rw [flushLoop] at h
    simp only [Option.some.injEq, Prod.mk.injEq] at h
    obtain ⟨hst, hs2⟩ := h
    subst hs2
    refine ⟨rfl, rfl, fun j hj => rfl, fun k hk => hk, fun k hk => rfl, ?_, ?_, ?_, ?_⟩
    · rintro _ _ ⟨j, d, hij, hget, -⟩
      rw [List.get?_eq_none.mpr (by omega)] at hget
      cases hget
    · rintro _ _ ⟨j, d, hij, hget, -⟩
      rw [List.get?_eq_none.mpr (by omega)] at hget
      cases hget
    · rintro _ _ ⟨j, d, hij, hget, -⟩
      rw [List.get?_eq_none.mpr (by omega)] at hget
      cases hget
    · intro _
      refine ⟨?_, ?_⟩
      · intro j d hij hget
        rw [List.get?_eq_none.mpr (by omega)] at hget
        cases hget
      · intro j d hij hget
        rw [List.get?_eq_none.mpr (by omega)] at hget
        cases hget
  | succ cnt ih =>
    intro s f i st s2 hInv hcnt h
    rw [flushLoop] at h
    cases hd : s.bufTable.get? i with
    | none =>
      rw [hd] at h
      exact Option.noConfusion h
    | some d =>
      rw [hd] at h
      dsimp only at h
      have hibound : i < s.bufTable.length := (List.get?_eq_some.mp hd).1
      by_cases hc1 : d.valid = true ∧ d.file = some f
      · rw [if_pos hc1] at h
        by_cases hpin : d.pinCnt > 0
        · rw [if_pos hpin] at h
          simp only [Option.some.injEq, Prod.mk.injEq] at h
          obtain ⟨hst, hs2⟩ := h
          subst hs2
          refine ⟨rfl, rfl, fun j hj => rfl, fun k hk => hk, fun k hk => rfl, ?_, ?_, ?_, ?_⟩
          · intro _ _ _
            exact hst.symm
          · intro _ hnopin _
            exact absurd ⟨hc1.1, hc1.2, hpin⟩ (hnopin i d (Nat.le_refl i) hd)
          · intro hnopin _ _
            exact absurd ⟨hc1.1, hc1.2, hpin⟩ (hnopin i d (Nat.le_refl i) hd)
          · intro hok
            rw [← hst] at hok
            cases hok
        · rw [if_neg hpin] at h
          by_cases hdirty : d.dirty = true
          · rw [if_pos hdirty] at h
            simp only [fileWritePage] at h
            by_cases hw : ((f : Nat), d.pageNo) ∈ s.writeErrs
            · rw [if_pos hw] at h
              dsimp only at h
              simp only [Option.some.injEq, Prod.mk.injEq] at h
              obtain ⟨hst, hs2⟩ := h
              subst hs2
              refine ⟨rfl, rfl, fun j hj => rfl, fun k hk => hk, fun k hk => rfl, ?_, ?_, ?_, ?_⟩
              · intro _ hnobad _
                exact absurd ⟨hc1.1, hc1.2, hdirty, hw⟩ (hnobad i d (Nat.le_refl i) hd)
              · intro _ _ _
                exact hst.symm
              · intro _ hnobad _
                exact absurd ⟨hc1.1, hc1.2, hdirty, hw⟩ (hnobad i d (Nat.le_refl i) hd)
              · intro hok
                rw [← hst] at hok
                cases hok
            · rw [if_neg hw] at h
              dsimp only at h
              have hInv1 := btInv_erase s.numBufs s.bufTable s.hashTable i d
                {d with dirty := false, file := none, pageNo := -1, valid := false} f
                hInv hd hc1.1 hc1.2 rfl rfl
              have hcnt1 : (i + 1) + cnt = (s.bufTable.set i
                  {d with dirty := false, file := none, pageNo := -1, valid := false}).length := by
                rw [List.length_set]
                omega
              rcases ih _ f (i + 1) st s2 (by exact hInv1) (by exact hcnt1) h with
                ⟨q1, q2, q3, q4, q5, q6, q7, q8, q9⟩
              have hframes1 : ∀ j, i + 1 ≤ j →
                  (s.bufTable.set i {d with dirty := false, file := none, pageNo := -1, valid := false}).get? j = s.bufTable.get? j := by
                intro j hj
                exact get?_set_ne _ _ _ _ (by omega)
              have hkeyInj : ∀ j dj, i + 1 ≤ j → s.bufTable.get? j = some dj →
                  dj.valid = true → dj.file = some f → ((f : Nat), dj.pageNo) ≠ ((f : Nat), d.pageNo) := by
                intro j dj hj hgj hvj hfj hk
                have h1 := hInv.2.2.1 j dj f hgj hvj hfj
                have h2 := hInv.2.2.1 i d f hd hc1.1 hc1.2
                rw [hk] at h1
                rw [h1] at h2
                cases h2
                omega
              refine ⟨by rw [q1], by rw [q2], ?_, ?_, ?_, ?_, ?_, ?_, ?_⟩
              · intro j hj
                rw [q3 j (by omega), get?_set_ne _ _ _ _ (by omega)]
              · intro k hk
                exact q4 k (hfind_hdrop_none _ _ _ hk)
              · intro k hk
                have hkey : ((f : Nat), d.pageNo) ≠ k := hk i d (Nat.le_refl i) hd hc1.1 hc1.2
                rw [q5 k ?side]
                · exact dfind_dwrite_ne _ _ _ _ (fun he => hkey he.symm)
                case side =>
                  intro j dj hj hgj hvj hfj
                  rw [hframes1 j hj] at hgj
                  exact hk j dj (by omega) hgj hvj hfj
              · intro hnostale hnobad hex
                rcases hex with ⟨j, dj, hij, hgj, hvj, hfj, hpj⟩
                have hji : j ≠ i := by
                  intro hji
                  subst hji
                  rw [hd] at hgj
                  cases hgj
                  exact hpin hpj
                refine q6 ?_ ?_ ⟨j, dj, by omega, ?_, hvj, hfj, hpj⟩
                · intro j2 d2 hj2 hg2
                  rw [hframes1 j2 hj2] at hg2
                  exact hnostale j2 d2 (by omega) hg2
                · intro j2 d2 hj2 hg2
                  rw [hframes1 j2 hj2] at hg2
                  exact hnobad j2 d2 (by omega) hg2
                · rw [hframes1 j (by omega)]
                  exact hgj
              · intro hnostale hnopin hex
                rcases hex with ⟨j, dj, hij, hgj, hvj, hfj, hdj, hwj⟩
                have hji : j ≠ i := by
                  intro hji
                  subst hji
                  rw [hd] at hgj
                  cases hgj
                  exact hw hwj
                refine q7 ?_ ?_ ⟨j, dj, by omega, ?_, hvj, hfj, hdj, hwj⟩
                · intro j2 d2 hj2 hg2
                  rw [hframes1 j2 hj2] at hg2
                  exact hnostale j2 d2 (by omega) hg2
                · intro j2 d2 hj2 hg2
                  rw [hframes1 j2 hj2] at hg2
                  exact hnopin j2 d2 (by omega) hg2
                · rw [hframes1 j (by omega)]
                  exact hgj
              · intro hnopin hnobad hex
                rcases hex with ⟨j, dj, hij, hgj, hvj, hfj⟩
                have hji : j ≠ i := by
                  intro hji
                  subst hji
                  rw [hd] at hgj
                  cases hgj
                  rw [hc1.1] at hvj
                  cases hvj
                refine q8 ?_ ?_ ⟨j, dj, by omega, ?_, hvj, hfj⟩
                · intro j2 d2 hj2 hg2
                  rw [hframes1 j2 hj2] at hg2
                  exact hnopin j2 d2 (by omega) hg2
                · intro j2 d2 hj2 hg2
                  rw [hframes1 j2 hj2] at hg2
                  exact hnobad j2 d2 (by omega) hg2
                · rw [hframes1 j (by omega)]
                  exact hgj
              · intro hok
                obtain ⟨qa, qb⟩ := q9 hok
                refine ⟨?_, ?_⟩
                · intro j dj hij hgj hvj
                  by_cases hji : j = i
                  · subst hji
                    rw [q3 j (by omega), get?_set_self _ _ _ hibound] at hgj
                    cases hgj
                    cases hvj
                  · exact qa j dj (by omega) hgj hvj
                · intro j dj hij hgj hvj hfj
                  by_cases hji : j = i
                  · subst hji
                    rw [hd] at hgj
                    cases hgj
                    refine ⟨q4 _ (hfind_hdrop_self _ _), ?_⟩
                    intro _
                    rw [q5 _ ?side2]
                    · exact dfind_dwrite_self _ _ _
                    case side2 =>
                      intro j2 d2 hj2 hg2 hv2 hf2
                      rw [hframes1 j2 hj2] at hg2
                      exact hkeyInj j2 d2 hj2 hg2 hv2 hf2
                  · have hgj1 : (s.bufTable.set i {d with dirty := false, file := none, pageNo := -1, valid := false}).get? j = some dj := by
                      rw [hframes1 j (by omega)]
                      exact hgj
                    obtain ⟨r1, r2⟩ := qb j dj (by omega) hgj1 hvj hfj
                    refine ⟨r1, ?_⟩
                    intro hdjd
                    rw [r2 hdjd]
          · rw [if_neg hdirty] at h
            have hInv1 := btInv_erase s.numBufs s.bufTable s.hashTable i d
              {d with file := none, pageNo := -1, valid := false} f
              hInv hd hc1.1 hc1.2 rfl rfl
            have hcnt1 : (i + 1) + cnt = (s.bufTable.set i
                {d with file := none, pageNo := -1, valid := false}).length := by
              rw [List.length_set]
              omega
            rcases ih _ f (i + 1) st s2 (by exact hInv1) (by exact hcnt1) h with
              ⟨q1, q2, q3, q4, q5, q6, q7, q8, q9⟩
            have hframes1 : ∀ j, i + 1 ≤ j →
                (s.bufTable.set i {d with file := none, pageNo := -1, valid := false}).get? j = s.bufTable.get? j := by
              intro j hj
              exact get?_set_ne _ _ _ _ (by omega)
            refine ⟨by rw [q1], by rw [q2], ?_, ?_, ?_, ?_, ?_, ?_, ?_⟩
            · intro j hj
              rw [q3 j (by omega), get?_set_ne _ _ _ _ (by omega)]
            · intro k hk
              exact q4 k (hfind_hdrop_none _ _ _ hk)
            · intro k hk
              rw [q5 k ?side3]
              case side3 =>
                intro j dj hj hgj hvj hfj
                rw [hframes1 j hj] at hgj
                exact hk j dj (by omega) hgj hvj hfj
            · intro hnostale hnobad hex
              rcases hex with ⟨j, dj, hij, hgj, hvj, hfj, hpj⟩
              have hji : j ≠ i := by
                intro hji
                subst hji
                rw [hd] at hgj
                cases hgj
                exact hpin hpj
              refine q6 ?_ ?_ ⟨j, dj, by omega, ?_, hvj, hfj, hpj⟩
              · intro j2 d2 hj2 hg2
                rw [hframes1 j2 hj2] at hg2
                exact hnostale j2 d2 (by omega) hg2
              · intro j2 d2 hj2 hg2
                rw [hframes1 j2 hj2] at hg2
                exact hnobad j2 d2 (by omega) hg2
              · rw [hframes1 j (by omega)]
                exact hgj
            · intro hnostale hnopin hex
              rcases hex with ⟨j, dj, hij, hgj, hvj, hfj, hdj, hwj⟩
              have hji : j ≠ i := by
                intro hji
                subst hji
                rw [hd] at hgj
                cases hgj
                exact hdirty hdj
              refine q7 ?_ ?_ ⟨j, dj, by omega, ?_, hvj, hfj, hdj, hwj⟩
              · intro j2 d2 hj2 hg2
                rw [hframes1 j2 hj2] at hg2
                exact hnostale j2 d2 (by omega) hg2
              · intro j2 d2 hj2 hg2
                rw [hframes1 j2 hj2] at hg2
                exact hnopin j2 d2 (by omega) hg2
              · rw [hframes1 j (by omega)]
                exact hgj
            · intro hnopin hnobad hex
              rcases hex with ⟨j, dj, hij, hgj, hvj, hfj⟩
              have hji : j ≠ i := by
                intro hji
                subst hji
                rw [hd] at hgj
                cases hgj
                rw [hc1.1] at hvj
                cases hvj
              refine q8 ?_ ?_ ⟨j, dj, by omega, ?_, hvj, hfj⟩
              · intro j2 d2 hj2 hg2
                rw [hframes1 j2 hj2] at hg2
                exact hnopin j2 d2 (by omega) hg2
              · intro j2 d2 hj2 hg2
                rw [hframes1 j2 hj2] at hg2
                exact hnobad j2 d2 (by omega) hg2
              · rw [hframes1 j (by omega)]
                exact hgj
            · intro hok
              obtain ⟨qa, qb⟩ := q9 hok
              refine ⟨?_, ?_⟩
              · intro j dj hij hgj hvj
                by_cases hji : j = i
                · subst hji
                  rw [q3 j (by omega), get?_set_self _ _ _ hibound] at hgj
                  cases hgj
                  cases hvj
                · exact qa j dj (by omega) hgj hvj
              · intro j dj hij hgj hvj hfj
                by_cases hji : j = i
                · subst hji
                  rw [hd] at hgj
                  cases hgj
                  refine ⟨q4 _ (hfind_hdrop_self _ _), ?_⟩
                  intro hdjd
                  exact absurd hdjd hdirty
                · have hgj1 : (s.bufTable.set i {d with file := none, pageNo := -1, valid := false}).get? j = some dj := by
                    rw [hframes1 j (by omega)]
                    exact hgj
                  obtain ⟨r1, r2⟩ := qb j dj (by omega) hgj1 hvj hfj
                  refine ⟨r1, ?_⟩
                  intro hdjd
                  rw [r2 hdjd]
      · rw [if_neg hc1] at h
        by_cases hc2 : d.valid = false ∧ d.file = some f
        · rw [if_pos hc2] at h
          simp only [Option.some.injEq, Prod.mk.injEq] at h
          obtain ⟨hst, hs2⟩ := h
          subst hs2
          refine ⟨rfl, rfl, fun j hj => rfl, fun k hk => hk, fun k hk => rfl, ?_, ?_, ?_, ?_⟩
          · intro hnostale _ _
            exact absurd ⟨hc2.1, hc2.2⟩ (hnostale i d (Nat.le_refl i) hd)
          · intro hnostale _ _
            exact absurd ⟨hc2.1, hc2.2⟩ (hnostale i d (Nat.le_refl i) hd)
          · intro _ _ _
            exact hst.symm
          · intro hok
            rw [← hst] at hok
            cases hok
        · rw [if_neg hc2] at h
          rcases ih s f (i + 1) st s2 hInv (by omega) h with
            ⟨q1, q2, q3, q4, q5, q6, q7, q8, q9⟩
          refine ⟨q1, q2, ?_, q4, ?_, ?_, ?_, ?_, ?_⟩
          · intro j hj
            exact q3 j (by omega)
          · intro k hk
            refine q5 k ?_
            intro j dj hj hgj hvj hfj
            exact hk j dj (by omega) hgj hvj hfj
          · intro hnostale hnobad hex
            rcases hex with ⟨j, dj, hij, hgj, hvj, hfj, hpj⟩
            have hji : j ≠ i := by
              intro hji
              subst hji
              rw [hd] at hgj
              cases hgj
              exact hc1 ⟨hvj, hfj⟩
            exact q6 (fun j2 d2 hj2 hg2 => hnostale j2 d2 (by omega) hg2)
              (fun j2 d2 hj2 hg2 => hnobad j2 d2 (by omega) hg2)
              ⟨j, dj, by omega, hgj, hvj, hfj, hpj⟩
          · intro hnostale hnopin hex
            rcases hex with ⟨j, dj, hij, hgj, hvj, hfj, hdj, hwj⟩
            have hji : j ≠ i := by
              intro hji
              subst hji
              rw [hd] at hgj
              cases hgj
              exact hc1 ⟨hvj, hfj⟩
            exact q7 (fun j2 d2 hj2 hg2 => hnostale j2 d2 (by omega) hg2)
              (fun j2 d2 hj2 hg2 => hnopin j2 d2 (by omega) hg2)
              ⟨j, dj, by omega, hgj, hvj, hfj, hdj, hwj⟩
          · intro hnopin hnobad hex
            rcases hex with ⟨j, dj, hij, hgj, hvj, hfj⟩
            have hji : j ≠ i := by
              intro hji
              subst hji
              rw [hd] at hgj
              cases hgj
              exact hc2 ⟨hvj, hfj⟩
            exact q8 (fun j2 d2 hj2 hg2 => hnopin j2 d2 (by omega) hg2)
              (fun j2 d2 hj2 hg2 => hnobad j2 d2 (by omega) hg2)
              ⟨j, dj, by omega, hgj, hvj, hfj⟩
          · intro hok
            obtain ⟨qa, qb⟩ := q9 hok
            refine ⟨?_, ?_⟩
            · intro j dj hij hgj hvj
              by_cases hji : j = i
              · subst hji
                rw [q3 j (by omega), hd] at hgj
                cases hgj
                intro hfj
                exact hc1 ⟨hvj, hfj⟩
              · exact qa j dj (by omega) hgj hvj
            · intro j dj hij hgj hvj hfj
              by_cases hji : j = i
              · subst hji
                rw [hd] at hgj
                cases hgj
                exact absurd ⟨hvj, hfj⟩ hc1
              · exact qb j dj (by omega) hgj hvj hfj

/-- No valid pinned frame of the file (executable). -/
def noPinnedOf (s : BufState) (f : Nat) : Bool :=
  s.bufTable.all fun d => !(d.valid && (d.file == some f) && (d.pinCnt != 0))

/-- No stale invalid descriptor still referencing the file (executable). -/
def noStaleOf (s : BufState) (f : Nat) : Bool :=
  s.bufTable.all fun d => !(!d.valid && (d.file == some f))

/-- No dirty frame of the file whose write-back would fail (executable). -/
def noBadWriteOf (s : BufState) (f : Nat) : Bool :=
  s.bufTable.all fun d =>
    !(d.valid && (d.file == some f) && d.dirty && decide ((f, d.pageNo) ∈ s.writeErrs))

theorem noPinnedOf_true (s : BufState) (f : Nat) (h : noPinnedOf s f = true) :
    ∀ j d, s.bufTable.get? j = some d → ¬(d.valid = true ∧ d.file = some f ∧ 0 < d.pinCnt) := by
  intro j d hget hcon
  have hthis := List.all_eq_true.mp h d (List.get?_mem hget)
  rw [Bool.not_eq_true'] at hthis
  have hT : (d.valid && (d.file == some f) && (d.pinCnt != 0)) = true := by
    simp only [Bool.and_eq_true, beq_iff_eq, bne_iff_ne, ne_eq]
    exact ⟨⟨hcon.1, hcon.2.1⟩, by omega⟩
  rw [hT] at hthis
  cases hthis

theorem noPinnedOf_false (s : BufState) (f : Nat) (h : noPinnedOf s f = false) :
    ∃ j d, s.bufTable.get? j = some d ∧ d.valid = true ∧ d.file = some f ∧ 0 < d.pinCnt := by
  rw [noPinnedOf, List.all_eq_false] at h
  rcases h with ⟨d, hmem, hp⟩
  have hx : (d.valid && (d.file == some f) && (d.pinCnt != 0)) = true := by
    revert hp
    cases hin : (d.valid && (d.file == some f) && (d.pinCnt != 0)) <;> simp
  simp only [Bool.and_eq_true, beq_iff_eq, bne_iff_ne, ne_eq] at hx
  rcases List.get?_of_mem hmem with ⟨j, hj⟩
  exact ⟨j, d, hj, hx.1.1, hx.1.2, by omega⟩

theorem noStaleOf_true (s : BufState) (f : Nat) (h : noStaleOf s f = true) :
    ∀ j d, s.bufTable.get? j = some d → ¬(d.valid = false ∧ d.file = some f) := by
  intro j d hget hcon
  have hthis := List.all_eq_true.mp h d (List.get?_mem hget)
  rw [Bool.not_eq_true'] at hthis
  have hT : (!d.valid && (d.file == some f)) = true := by
    simp only [Bool.and_eq_true, Bool.not_eq_true', beq_iff_eq]
    exact ⟨hcon.1, hcon.2⟩
  rw [hT] at hthis
  cases hthis

theorem noStaleOf_false (s : BufState) (f : Nat) (h : noStaleOf s f = false) :
    ∃ j d, s.bufTable.get? j = some d ∧ d.valid = false ∧ d.file = some f := by
  rw [noStaleOf, List.all_eq_false] at h
  rcases h with ⟨d, hmem, hp⟩
  have hx : (!d.valid && (d.file == some f)) = true := by
    revert hp
    cases hin : (!d.valid && (d.file == some f)) <;> simp
  simp only [Bool.and_eq_true, Bool.not_eq_true', beq_iff_eq] at hx
  rcases List.get?_of_mem hmem with ⟨j, hj⟩
  exact ⟨j, d, hj, hx.1, hx.2⟩

theorem noBadWriteOf_true (s : BufState) (f : Nat) (h : noBadWriteOf s f = true) :
    ∀ j d, s.bufTable.get? j = some d →
      ¬(d.valid = true ∧ d.file = some f ∧ d.dirty = true ∧ (f, d.pageNo) ∈ s.writeErrs) := by
  intro j d hget hcon
  have hthis := List.all_eq_true.mp h d (List.get?_mem hget)
  rw [Bool.not_eq_true'] at hthis
  have hT : (d.valid && (d.file == some f) && d.dirty && decide ((f, d.pageNo) ∈ s.writeErrs)) = true := by
    simp only [Bool.and_eq_true, beq_iff_eq, decide_eq_true_eq]
    exact ⟨⟨⟨hcon.1, hcon.2.1⟩, hcon.2.2.1⟩, hcon.2.2.2⟩
  rw [hT] at hthis
  cases hthis

theorem noBadWriteOf_false (s : BufState) (f : Nat) (h : noBadWriteOf s f = false) :
    ∃ j d, s.bufTable.get? j = some d ∧ d.valid = true ∧ d.file = some f ∧
      d.dirty = true ∧ (f, d.pageNo) ∈ s.writeErrs := by
  rw [noBadWriteOf, List.all_eq_false] at h
  rcases h with ⟨d, hmem, hp⟩
  have hx : (d.valid && (d.file == some f) && d.dirty && decide ((f, d.pageNo) ∈ s.writeErrs)) = true := by
    revert hp
    cases hin : (d.valid && (d.file == some f) && d.dirty && decide ((f, d.pageNo) ∈ s.writeErrs)) <;> simp
  simp only [Bool.and_eq_true, beq_iff_eq, decide_eq_true_eq] at hx
  rcases List.get?_of_mem hmem with ⟨j, hj⟩
  exact ⟨j, d, hj, hx.1.1.1, hx.1.1.2, hx.1.2, hx.2⟩

/-- C4 (amended): flushFile returns PAGEPINNED when some valid frame of the
file is pinned, provided no stale descriptor references the file and no
dirty write-back of the file fails; it propagates the write error (UNIXERR
in the modelled file layer) when a dirty write-back fails, provided no frame
is pinned and none is stale; it returns BADBUFFER when an invalid
descriptor still references the file, provided no frame is pinned and no
write fails; and whenever it returns OK, no valid frame belongs to the file
any more, every residency mapping of the file is gone, and every previously
dirty page of the file is on disk identical to its pool content at the
moment of the flush.  (The unamended claim's unconditional PAGEPINNED
clause fails: see the counterexample.) -/
theorem c4_flushFile_spec (s : BufState) (f : Nat) (st : Status) (s2 : BufState)
    (hInv : bufInvB s = true) (h : flushFile s f = some (st, s2)) :
    (noStaleOf s f = true → noBadWriteOf s f = true → noPinnedOf s f = false →
      st = Status.PAGEPINNED) ∧
    (noStaleOf s f = true → noPinnedOf s f = true → noBadWriteOf s f = false →
      st = Status.UNIXERR) ∧
    (noPinnedOf s f = true → noBadWriteOf s f = true → noStaleOf s f = false →
      st = Status.BADBUFFER) ∧
    (st = Status.OK →
      (∀ j d, s2.bufTable.get? j = some d → d.valid = true → d.file ≠ some f) ∧
      (∀ j d, s.bufTable.get? j = some d → d.valid = true → d.file = some f →
        hfind s2.hashTable (f, d.pageNo) = none ∧
        (d.dirty = true → dfind s2.disk (f, d.pageNo) = s.bufPool.getD j 0))) := by
  have hInvP : bufInvP s := (bufInvB_iff s).mp hInv
  rw [flushFile] at h
  rcases flushLoop_props s.numBufs s f 0 st s2 hInvP (by rw [hInvP.1]; omega) h with
    ⟨-, -, -, -, -, q6, q7, q8, q9⟩
  refine ⟨?_, ?_, ?_, ?_⟩
  · intro hstale hbad hpin
    rcases noPinnedOf_false s f hpin with ⟨j, d, hj, hv, hf2, hp⟩
    exact q6 (fun j2 d2 _ hg2 => noStaleOf_true s f hstale j2 d2 hg2)
      (fun j2 d2 _ hg2 => noBadWriteOf_true s f hbad j2 d2 hg2)
      ⟨j, d, Nat.zero_le j, hj, hv, hf2, hp⟩
  · intro hstale hpin hbad
    rcases noBadWriteOf_false s f hbad with ⟨j, d, hj, hv, hf2, hdj, hw⟩
    exact q7 (fun j2 d2 _ hg2 => noStaleOf_true s f hstale j2 d2 hg2)
      (fun j2 d2 _ hg2 => noPinnedOf_true s f hpin j2 d2 hg2)
      ⟨j, d, Nat.zero_le j, hj, hv, hf2, hdj, hw⟩
  · intro hpin hbad hstale
    rcases noStaleOf_false s f hstale with ⟨j, d, hj, hv, hf2⟩
    exact q8 (fun j2 d2 _ hg2 => noPinnedOf_true s f hpin j2 d2 hg2)
      (fun j2 d2 _ hg2 => noBadWriteOf_true s f hbad j2 d2 hg2)
      ⟨j, d, Nat.zero_le j, hj, hv, hf2⟩
  · intro hok
    obtain ⟨qa, qb⟩ := q9 hok
    exact ⟨fun j d hg hv => qa j d (Nat.zero_le j) hg hv,
           fun j d hg hv hf2 => qb j d (Nat.zero_le j) hg hv hf2⟩

/-- Two frames of file 7: frame 0 unpinned and dirty with a failing
write-back, frame 1 pinned. -/
def c4Bad : BufState :=
  ⟨2, [⟨0, true, some 7, 0, 0, true, false⟩, ⟨1, true, some 7, 1, 2, false, false⟩],
   [3, 4], [((7, 0), 0), ((7, 1), 1)], 0, [], [], [(7, 0)], [], [], 0⟩

/-- C4 counterexample: on c4Bad, a valid frame of file 7 (frame 1) has
pinCnt > 0, yet flushFile returns UNIXERR, not PAGEPINNED: the loop of
buf.C lines 237-272 reaches frame 0's failing dirty write-back first.  This
refutes the claim's unconditional "if any valid frame holding a page of
file has pinCnt > 0 it returns PAGEPINNED immediately". -/
theorem c4_flushFile_counterexample :
    (flushFile c4Bad 7).map (fun r => r.1) = some Status.UNIXERR ∧
    c4Bad.bufTable.get? 1 = some ⟨1, true, some 7, 1, 2, false, false⟩ :=
  ⟨rfl, rfl⟩

/-- Frame 0 dirty for file 7 (writable), frame 1 belonging to file 9. -/
def c4Good : BufState :=
  ⟨2, [⟨0, true, some 7, 0, 0, true, false⟩, ⟨1, true, some 9, 5, 0, false, true⟩],
   [3, 4], [((7, 0), 0), ((9, 5), 1)], 0, [], [], [], [], [], 0⟩

/-- Witness for c4_flushFile_spec: flushing file 7 out of c4Good succeeds;
the dirty page (7,0) ends up on disk with its pool content 3 and its
residency mapping is gone. -/
theorem c4_flushFile_spec_witness :
    hfind [((9, 5), (1 : Nat))] ((7 : Nat), (0 : Int)) = none ∧
    (true = true →
      dfind [(((7 : Nat), (0 : Int)), (3 : Int))] (7, 0) = c4Good.bufPool.getD 0 0) :=
  ((c4_flushFile_spec c4Good 7 Status.OK
    ⟨2, [⟨0, false, none, -1, 0, false, false⟩, ⟨1, true, some 9, 5, 0, false, true⟩],
     [3, 4], [((9, 5), 1)], 0, [((7, 0), 3)], [], [], [], [(7, 0)], 0⟩
    (by decide) (by decide)).2.2.2 rfl).2 0 ⟨0, true, some 7, 0, 0, true, false⟩ rfl rfl rfl

/- ------------------------------------------------------------------ -/
/- Heap-file layer (src/s4/heapfile.C).                                -/
/- ------------------------------------------------------------------ -/

/-- A record: its byte length and an abstract payload standing for its
bytes (the record layout is owned by the page layer, spec section 6; the
payload is what the filter comparison extracts). -/
structure Record where
  len : Nat
  val : Int
  deriving DecidableEq, Repr

/-- A record identifier (pageNo, slotNo), spec section 3. -/
structure RID where
  pageNo : Int
  slotNo : Int
  deriving DecidableEq, Repr

/-- The distinguished null RID. -/
def NULLRID : RID := ⟨-1, -1⟩

/-- Modelled from the spec: a slotted data page owned by the page layer
(spec section 6): its own page number, its records in slot order (dense, as
no deletions occur in the claims' scenarios) and the nextPage link (-1 ends
the list). -/
structure DataPage where
  pageNo : Int
  recs : List Record
  nextPage : Int
  deriving DecidableEq, Repr

/-- Modelled from the spec: Page::firstRecord, the RID of slot 0 or
NORECORDS on an empty page. -/
def Page_firstRecord (p : DataPage) : Option RID :=
  if p.recs.isEmpty then none else some ⟨p.pageNo, 0⟩

/-- Modelled from the spec: Page::nextRecord advances to the following slot
(only the slot number of the input RID matters, so NULLRID's slot -1 yields
slot 0), ENDOFPAGE past the last slot. -/
def Page_nextRecord (p : DataPage) (cur : RID) : Option RID :=
  if 0 ≤ cur.slotNo + 1 ∧ cur.slotNo + 1 < (p.recs.length : Int) then
    some ⟨p.pageNo, cur.slotNo + 1⟩
  else none

/-- Modelled from the spec: Page::getRecord by slot number. -/
def Page_getRecord (p : DataPage) (r : RID) : Option Record :=
  if 0 ≤ r.slotNo then p.recs.get? r.slotNo.toNat else none

/-- Modelled from the spec: PAGESIZE of page.h. -/
def PAGESIZE : Nat := 1024

/-- Modelled from the spec: DPFIXED, the fixed slotted-page overhead of
page.h. -/
def DPFIXED : Nat := 20

/-- Modelled from the spec: Page::insertRecord appends into the next slot
when the record fits into the remaining free space, else NOSPACE. -/
def Page_insertRecord (p : DataPage) (r : Record) : Option (DataPage × RID) :=
  if (p.recs.map (fun q => q.len)).sum + r.len ≤ PAGESIZE - DPFIXED then
    some ({p with recs := p.recs ++ [r]}, ⟨p.pageNo, (p.recs.length : Int)⟩)
  else none

/-- Modelled from minirel's catalog types: the Datatype enum values. -/
def STRING : Int := 0

def INTEGER : Int := 1

def FLOAT : Int := 2

/-- Modelled from minirel's Operator enum values (suffixed with op to avoid
clashing with the core order classes). -/
def LTop : Int := 0

def LTEop : Int := 1

def EQop : Int := 2

def GTEop : Int := 3

def GTop : Int := 4

def NEop : Int := 5

/-- The heap-file scan state: the data pages of the open file (seen through
the buffer pool), the header-page fields, the cursor and mark of
HeapFileScan, the scan predicate stored by startScan, the heap-layer view
of the buffer manager's pin counts, and the allocatePage counter. -/
structure HFState where
  pages : List (Int × DataPage)
  firstPage : Int
  lastPage : Int
  pageCnt : Int
  recCnt : Int
  hdrDirtyFlag : Bool
  curPageSome : Bool
  curPageNo : Int
  curDirtyFlag : Bool
  curRec : RID
  markedPageNo : Int
  markedRec : RID
  pins : List (Int × Nat)
  filter : Option Int
  offset : Int
  length : Int
  type : Int
  op : Int
  nextAllocPage : Int
  deriving DecidableEq, Repr

/-- Page lookup in the open file. -/
def pageLookup : List (Int × DataPage) → Int → Option DataPage
  | [], _ => none
  | e :: rest, p => if e.1 = p then some e.2 else pageLookup rest p

/-- Replacement of a page's content. -/
def pagesSet : List (Int × DataPage) → Int → DataPage → List (Int × DataPage)
  | [], _, _ => []
  | e :: rest, p, pg => if e.1 = p then (p, pg) :: rest else e :: pagesSet rest p pg

/-- Pin-count lookup in the heap layer's buffer view. -/
def pinsLookup : List (Int × Nat) → Int → Option Nat
  | [], _ => none
  | e :: rest, p => if e.1 = p then some e.2 else pinsLookup rest p

/-- Pin-count replacement. -/
def pinsSet : List (Int × Nat) → Int → Nat → List (Int × Nat)
  | [], p, n => [(p, n)]
  | e :: rest, p, n => if e.1 = p then (p, n) :: rest else e :: pinsSet rest p n

/-- Pin-count increment (a fresh residency starts at one pin). -/
def pinsIncr (ps : List (Int × Nat)) (p : Int) : List (Int × Nat) :=
  match pinsLookup ps p with
  | some n => pinsSet ps p (n + 1)
  | none => pinsSet ps p 1

/-- A simplified stand-in for BufMgr::readPage (src/buf.C, embedded in full
as readPage above), used only on InsertFileScan::insertRecord's cursor and
page-allocation paths: it serves the page and takes one pin, leaving the
bounded pool and the failure paths (BUFFEREXCEEDED, HASHTBLERROR, I/O
errors) unrepresented, so the only error is a bad page number.  The scan
functions below go through the full readPage/unPinPage embedding instead. -/
def bufReadPage (s : HFState) (p : Int) : Status × Option DataPage × HFState :=
  match pageLookup s.pages p with
  | none => (Status.BADPAGENO, none, s)
  | some pg => (Status.OK, some pg, {s with pins := pinsIncr s.pins p})

/-- BufMgr::unPinPage (src/buf.C lines 168-188, embedded in full as
unPinPage above) in the heap layer's view, with residency tracked by page
number: HASHNOTFOUND for a non-resident page, PAGENOTPINNED at pin count
zero, else one pin released (the dirty flag is absorbed by the page
store) -- the same outcomes the full embedding produces. -/
def bufUnpin (s : HFState) (p : Int) (_dirty : Bool) : Status × HFState :=
  match pinsLookup s.pins p with
  | none => (Status.HASHNOTFOUND, s)
  | some 0 => (Status.PAGENOTPINNED, s)
  | some (n + 1) => (Status.OK, {s with pins := pinsSet s.pins p n})

/-- HeapFileScan::matchRec (heapfile.C lines 459-511).  The typed byte
extraction and comparison is abstracted to the record's payload against the
filter value; the null-filter short circuit and the bounds test follow the
source. -/
def matchRec (s : HFState) (rec : Record) : Bool :=
  match s.filter with
  | none => true
  | some fv =>
    if s.offset + s.length - 1 ≥ (rec.len : Int) then false
    else
      let diff : Int := rec.val - fv
      if s.op = LTop then diff < 0
      else if s.op = LTEop then diff ≤ 0
      else if s.op = EQop then diff = 0
      else if s.op = GTEop then diff ≥ 0
      else if s.op = GTop then diff > 0
      else if s.op = NEop then diff ≠ 0
      else false

/-- HeapFileScan::startScan (heapfile.C lines 263-290). -/
def startScan (s : HFState) (offset_ length_ : Int) (type_ : Int)
    (filter_ : Option Int) (op_ : Int) : Status × HFState :=
  match filter_ with
  | none => (Status.OK, {s with filter := none})
  | some fv =>
    if (offset_ < 0 ∨ length_ < 1) ∨
       (type_ ≠ STRING ∧ type_ ≠ INTEGER ∧ type_ ≠ FLOAT) ∨
       ((type_ = INTEGER ∧ length_ ≠ 4) ∨ (type_ = FLOAT ∧ length_ ≠ 4)) ∨
       (op_ ≠ LTop ∧ op_ ≠ LTEop ∧ op_ ≠ EQop ∧ op_ ≠ GTEop ∧ op_ ≠ GTop ∧ op_ ≠ NEop) then
      (Status.BADSCANPARM, s)
    else
      (Status.OK, {s with offset := offset_, length := length_, type := type_,
                          filter := some fv, op := op_})

/-- The cursor-restoring prefix of InsertFileScan::insertRecord
(heapfile.C lines 559-580): when no cursor page is pinned, the source first
unpins the nominal cursor and propagates any error, then pins the last
page. -/
def insertEnsureCur (s : HFState) : Status × HFState :=
  if s.curPageSome then (Status.OK, s)
  else
    match bufUnpin s s.curPageNo s.curDirtyFlag with
    | (Status.OK, s1) =>
      let s2 := {s1 with curPageNo := s1.lastPage}
      match bufReadPage s2 s2.curPageNo with
      | (Status.OK, some pg, s3) =>
        let s4 := {s3 with curDirtyFlag := false, curPageSome := true}
        match Page_firstRecord pg with
        | none => (Status.NORECORDS, s4)
        | some r => (Status.OK, {s4 with curRec := r})
      | (st, _, s3) => (st, {s3 with curDirtyFlag := false})
    | (st, s1) => (st, s1)

/-- InsertFileScan::insertRecord (heapfile.C lines 545-642).  The NOSPACE
path allocates a new page through the buffer manager (folding Page::init
into the allocation), links it, and retries; the source's stale status
checks after the two unpins swallow unpin failures, which the model mirrors
by dropping those statuses. -/
def insertRecord (s : HFState) (rec : Record) : Option (Status × RID × HFState) :=
  if (rec.len : Nat) > PAGESIZE - DPFIXED then some (Status.INVALIDRECLEN, NULLRID, s)
  else
    match insertEnsureCur s with
    | (Status.OK, s1) =>
      match pageLookup s1.pages s1.curPageNo with
      | none => none
      | some pg =>
        match Page_insertRecord pg rec with
        | some (pg2, rid) =>
          some (Status.OK, rid,
            {s1 with pages := pagesSet s1.pages s1.curPageNo pg2,
                     recCnt := s1.recCnt + 1, curRec := rid, curDirtyFlag := true})
        | none =>
          let newPageNo := s1.nextAllocPage
          let s2 := {s1 with nextAllocPage := s1.nextAllocPage + 1,
                             pages := s1.pages ++ [(newPageNo, (⟨newPageNo, [], -1⟩ : DataPage))],
                             pins := pinsIncr s1.pins newPageNo}
          let s3 := {s2 with lastPage := newPageNo, pageCnt := s2.pageCnt + 1,
                             pages := pagesSet s2.pages s2.curPageNo {pg with nextPage := newPageNo},
                             curDirtyFlag := true}
          let s4 := (bufUnpin s3 s3.curPageNo s3.curDirtyFlag).2
          let s5 := {s4 with curPageNo := s4.lastPage}
          match bufReadPage s5 s5.curPageNo with
          | (Status.OK, some npg, s6) =>
            match Page_insertRecord npg rec with
            | none => some (Status.NOSPACE, NULLRID, s6)
            | some (npg2, rid) =>
              let s7 := {s6 with pages := pagesSet s6.pages s6.curPageNo {npg2 with nextPage := -1},
                                 recCnt := s6.recCnt + 1, curRec := rid, curDirtyFlag := true}
              let s8 := (bufUnpin s7 s7.curPageNo s7.curDirtyFlag).2
              some (Status.OK, rid, s8)
          | (st, _, s6) => some (st, NULLRID, s6)
    | (st, s1) => some (st, NULLRID, s1)

/-- The page-number chain of the heap file from a given head page: each
listed page is present under its own number, is nonempty and links to the
next; the last page links to -1. -/
def isChainFrom (ps : List (Int × DataPage)) : Int → List Int → Bool
  | h, [] => h == -1
  | h, p :: rest =>
    (h == p) && (0 ≤ p) &&
    (match pageLookup ps p with
     | some pg => (pg.pageNo == p) && !pg.recs.isEmpty && isChainFrom ps pg.nextPage rest
     | none => false)

/-- The RIDs of one page's slots from slot k on. -/
def pageRidsFrom (ps : List (Int × DataPage)) (p : Int) (k : Nat) : List RID :=
  match pageLookup ps p with
  | some pg => (List.range' k (pg.recs.length - k)).map (fun i => ⟨p, Int.ofNat i⟩)
  | none => []

/-- All RIDs of a chain, in page order and slot order. -/
def ridsOfChain (ps : List (Int × DataPage)) : List Int → List RID
  | [] => []
  | p :: rest => pageRidsFrom ps p 0 ++ ridsOfChain ps rest

/- ------------------------------------------------------------------ -/
/- C7, C8: insertRecord.                                               -/
/- ------------------------------------------------------------------ -/

/-- An insert scan over a two-page file (empty header-side page 1, data
page 2 holding one record), cursor pinned on page 2, clean header flag. -/
def c7State : HFState :=
  ⟨[(1, ⟨1, [], -1⟩), (2, ⟨2, [⟨10, 5⟩], -1⟩)], 2, 2, 1, 1, false,
   true, 2, false, NULLRID, 0, NULLRID, [(1, 1), (2, 1)], none, 0, 0, 0, 0, 3⟩

/-- C7 (code_bug evaluation): a successful insertRecord increments recCnt,
sets curRec to the new RID, marks the cursor page dirty and outputs the
RID, but leaves hdrDirtyFlag false, although the claim (and spec section 9,
which flags exactly this) requires every recCnt update to set
hdrDirtyFlag. -/
theorem c7_insertRecord_hdrDirty_not_set :
    ∃ s2, insertRecord c7State ⟨8, 42⟩ = some (Status.OK, ⟨2, 1⟩, s2) ∧
      s2.recCnt = c7State.recCnt + 1 ∧ s2.curRec = ⟨2, 1⟩ ∧
      s2.curDirtyFlag = true ∧ s2.hdrDirtyFlag = false :=
  ⟨_, rfl, rfl, rfl, rfl, rfl⟩

/-- An insert scan whose cursor page pointer is null while curPageNo holds
the stale value 5, a page that is not resident in the buffer pool. -/
def c8State : HFState :=
  ⟨[(2, ⟨2, [⟨10, 5⟩], -1⟩)], 2, 2, 1, 1, false,
   false, 5, false, NULLRID, 0, NULLRID, [], none, 0, 0, 0, 0, 3⟩

/-- C8 (code_bug evaluation): called with no cursor page pinned and a valid
record length, insertRecord returns HASHNOTFOUND: the source (heapfile.C
lines 559-566) unpins the nominal cursor unconditionally and propagates the
unpin error, where the claim (and spec section 9) requires the unpin to be
a no-op so that the insert proceeds on headerPage.lastPage. -/
theorem c8_insertRecord_null_cursor_error :
    (insertRecord c8State ⟨8, 42⟩).map (fun r => r.1) = some Status.HASHNOTFOUND ∧
    c8State.curPageSome = false ∧ (8 : Nat) ≤ PAGESIZE - DPFIXED :=
  ⟨rfl, rfl, by decide⟩

/- ------------------------------------------------------------------ -/
/- C10: startScan with a null filter.                                  -/
/- ------------------------------------------------------------------ -/

/-- C10: startScan with filter = null returns OK for every combination of
the remaining parameters (offset < 0, length < 1, a type outside the enum,
a mismatched width, an invalid operator included), performs no validation
and stores a null filter, so every subsequent matchRec returns true; with a
non-null filter, BADSCANPARM is returned exactly on the invalid
combinations of heapfile.C lines 274-281. -/
theorem c10_startScan_null_filter (s : HFState) (offset_ length_ type_ op_ : Int) :
    (startScan s offset_ length_ type_ none op_).1 = Status.OK ∧
    (startScan s offset_ length_ type_ none op_).2.filter = none ∧
    (∀ rec, matchRec (startScan s offset_ length_ type_ none op_).2 rec = true) ∧
    (∀ fv, (startScan s offset_ length_ type_ (some fv) op_).1 = Status.BADSCANPARM ↔
      ((offset_ < 0 ∨ length_ < 1) ∨
       (type_ ≠ STRING ∧ type_ ≠ INTEGER ∧ type_ ≠ FLOAT) ∨
       ((type_ = INTEGER ∧ length_ ≠ 4) ∨ (type_ = FLOAT ∧ length_ ≠ 4)) ∨
       (op_ ≠ LTop ∧ op_ ≠ LTEop ∧ op_ ≠ EQop ∧ op_ ≠ GTEop ∧ op_ ≠ GTop ∧ op_ ≠ NEop))) := by
  refine ⟨rfl, rfl, fun rec => rfl, fun fv => ?_⟩
  rw [startScan]
  by_cases hc : (offset_ < 0 ∨ length_ < 1) ∨
      (type_ ≠ STRING ∧ type_ ≠ INTEGER ∧ type_ ≠ FLOAT) ∨
      ((type_ = INTEGER ∧ length_ ≠ 4) ∨ (type_ = FLOAT ∧ length_ ≠ 4)) ∨
      (op_ ≠ LTop ∧ op_ ≠ LTEop ∧ op_ ≠ EQop ∧ op_ ≠ GTEop ∧ op_ ≠ GTop ∧ op_ ≠ NEop)
  · rw [if_pos hc]
    exact ⟨fun _ => hc, fun _ => rfl⟩
  · rw [if_neg hc]
    exact ⟨fun he => absurd he.symm (by exact fun h2 => Status.noConfusion h2),
           fun he => absurd he hc⟩

/- ------------------------------------------------------------------ -/
/- C6: scan exhaustiveness.                                            -/
/- ------------------------------------------------------------------ -/

theorem pinsLookup_pinsSet_self (ps : List (Int × Nat)) (p : Int) (n : Nat) :
    pinsLookup (pinsSet ps p n) p = some n := by
  induction ps with
  | nil => rw [pinsSet, pinsLookup, if_pos rfl]
  | cons e rest ih =>
    by_cases he : e.1 = p
    · rw [pinsSet, if_pos he, pinsLookup, if_pos rfl]
    · rw [pinsSet, if_neg he, pinsLookup, if_neg he]
      exact ih

theorem pinsLookup_pinsIncr_self (ps : List (Int × Nat)) (p : Int) :
    ∃ n, pinsLookup (pinsIncr ps p) p = some (n + 1) := by
  rw [pinsIncr]
  cases h : pinsLookup ps p with
  | none => exact ⟨0, pinsLookup_pinsSet_self ps p 1⟩
  | some n => exact ⟨n, pinsLookup_pinsSet_self ps p (n + 1)⟩

theorem pageRidsFrom_cons (ps : List (Int × DataPage)) (p : Int) (pg : DataPage)
    (hpg : pageLookup ps p = some pg) (k : Nat) (hk : k < pg.recs.length) :
    pageRidsFrom ps p k = ⟨p, (k : Int)⟩ :: pageRidsFrom ps p (k + 1) := by
  rw [pageRidsFrom, pageRidsFrom, hpg]
  dsimp only
  have hlen : pg.recs.length - k = (pg.recs.length - (k + 1)) + 1 := by omega
  rw [hlen, List.range'_succ]
  rfl

theorem pageRidsFrom_end (ps : List (Int × DataPage)) (p : Int) (pg : DataPage)
    (hpg : pageLookup ps p = some pg) (k : Nat) (hk : pg.recs.length ≤ k) :
    pageRidsFrom ps p k = [] := by
  rw [pageRidsFrom, hpg]
  dsimp only
  have hlen : pg.recs.length - k = 0 := by omega
  rw [hlen]
  rfl

theorem isChainFrom_nil (ps : List (Int × DataPage)) (h : Int)
    (hc : isChainFrom ps h [] = true) : h = -1 := by
  rw [isChainFrom] at hc
  exact eq_of_beq hc

theorem isChainFrom_cons (ps : List (Int × DataPage)) (h p : Int) (rest : List Int)
    (hc : isChainFrom ps h (p :: rest) = true) :
    h = p ∧ 0 ≤ p ∧ ∃ pg, pageLookup ps p = some pg ∧ pg.pageNo = p ∧
      pg.recs ≠ [] ∧ isChainFrom ps pg.nextPage rest = true := by
  rw [isChainFrom] at hc
  cases hpg : pageLookup ps p with
  | none =>
    rw [hpg] at hc
    simp at hc
  | some pg =>
    rw [hpg] at hc
    simp only [Bool.and_eq_true, beq_iff_eq, decide_eq_true_eq, Bool.not_eq_true'] at hc
    refine ⟨hc.1.1, hc.1.2, pg, rfl, hc.2.1.1, ?_, hc.2.2⟩
    intro hnil
    rw [hnil] at hc
    simp at hc

theorem ridsOfChain_len_cons (ps : List (Int × DataPage)) (q : Int) (rest : List Int)
    (pgq : DataPage) (hpgq : pageLookup ps q = some pgq) :
    (ridsOfChain ps (q :: rest)).length =
      pgq.recs.length + (ridsOfChain ps rest).length := by
  rw [ridsOfChain, List.length_append, pageRidsFrom, hpgq]
  dsimp only
  rw [List.length_map, List.length_range']
  omega

theorem isChainFrom_unique (ps : List (Int × DataPage)) :
    ∀ (c1 c2 : List Int) (h : Int), isChainFrom ps h c1 = true →
      isChainFrom ps h c2 = true → c1 = c2 := by
  intro c1
  induction c1 with
  | nil =>
    intro c2 h h1 h2
    have hm1 : h = -1 := isChainFrom_nil ps h h1
    cases c2 with
    | nil => rfl
    | cons p r =>
      rcases isChainFrom_cons ps h p r h2 with ⟨hp, hp0, -⟩
      omega
  | cons p r1 ih =>
    intro c2 h h1 h2
    rcases isChainFrom_cons ps h p r1 h1 with ⟨hp, hp0, pg, hpg, hpn, hne, hrest⟩
    cases c2 with
    | nil =>
      have hm1 : h = -1 := isChainFrom_nil ps h h2
      omega
    | cons q r2 =>
      rcases isChainFrom_cons ps h q r2 h2 with ⟨hq, hq0, pg', hpg', hpn', hne', hrest'⟩
      have hqp : q = p := by omega
      rw [hqp] at hpg' ⊢
      rw [hpg] at hpg'
      cases hpg'
      rw [ih r2 pg.nextPage hrest hrest']

theorem isChainFrom_mem_suffix (ps : List (Int × DataPage)) :
    ∀ (c : List Int) (h p : Int), isChainFrom ps h c = true → p ∈ c →
      ∃ c', isChainFrom ps p (p :: c') = true ∧ c'.length < c.length := by
  intro c
  induction c with
  | nil =>
    intro h p hc hp
    exact absurd hp (List.not_mem_nil p)
  | cons q rest ih =>
    intro h p hc hp
    rcases isChainFrom_cons ps h q rest hc with ⟨hq, hq0, pg, hpg, hpn, hne, hrest⟩
    rcases List.mem_cons.mp hp with hpq | hpr
    · refine ⟨rest, ?_, Nat.lt_succ_self _⟩
      rw [hpq]
      rw [hq] at hc
      exact hc
    · rcases ih pg.nextPage p hrest hpr with ⟨c', hc', hlen⟩
      exact ⟨c', hc', Nat.lt_succ_of_lt hlen⟩

theorem isChainFrom_nodup (ps : List (Int × DataPage)) :
    ∀ (c : List Int) (h : Int), isChainFrom ps h c = true → c.Nodup := by
  intro c
  induction c with
  | nil => intro h _; exact List.nodup_nil
  | cons p rest ih =>
    intro h hc
    rcases isChainFrom_cons ps h p rest hc with ⟨hp, hp0, pg, hpg, hpn, hne, hrest⟩
    refine List.nodup_cons.mpr ⟨?_, ih pg.nextPage hrest⟩
    intro hmem
    rcases isChainFrom_mem_suffix ps rest pg.nextPage p hrest hmem with ⟨c', hc', hlen⟩
    have hself : isChainFrom ps p (p :: rest) = true := by rw [hp] at hc; exact hc
    have heq : p :: rest = p :: c' := isChainFrom_unique ps (p :: rest) (p :: c') p hself hc'
    have hrc : rest = c' := by injection heq
    rw [hrc] at hlen
    exact absurd hlen (lt_irrefl _)

theorem mem_pageRidsFrom_pageNo (ps : List (Int × DataPage)) (p : Int) (k : Nat)
    (r : RID) (hr : r ∈ pageRidsFrom ps p k) : r.pageNo = p := by
  rw [pageRidsFrom] at hr
  cases hpg : pageLookup ps p with
  | none => rw [hpg] at hr; exact absurd hr (List.not_mem_nil r)
  | some pg =>
    rw [hpg] at hr
    dsimp only at hr
    rcases List.mem_map.mp hr with ⟨i, -, hi⟩
    rw [← hi]

theorem mem_ridsOfChain_pageNo (ps : List (Int × DataPage)) :
    ∀ (c : List Int) (r : RID), r ∈ ridsOfChain ps c → r.pageNo ∈ c := by
  intro c
  induction c with
  | nil => intro r hr; exact absurd hr (List.not_mem_nil r)
  | cons p rest ih =>
    intro r hr
    rcases List.mem_append.mp hr with h1 | h2
    · exact List.mem_cons.mpr (Or.inl (mem_pageRidsFrom_pageNo ps p 0 r h1))
    · exact List.mem_cons.mpr (Or.inr (ih r h2))

theorem pageRidsFrom_nodup (ps : List (Int × DataPage)) (p : Int) (k : Nat) :
    (pageRidsFrom ps p k).Nodup := by
  rw [pageRidsFrom]
  cases hpg : pageLookup ps p with
  | none => exact List.nodup_nil
  | some pg =>
    dsimp only
    refine List.Nodup.map ?_ (List.nodup_range' k (pg.recs.length - k) 1 Nat.one_pos)
    intro a b hab
    have hio : Int.ofNat a = Int.ofNat b := congrArg RID.slotNo hab
    exact Int.ofNat.inj hio

theorem ridsOfChain_nodup (ps : List (Int × DataPage)) :
    ∀ (c : List Int), c.Nodup → (ridsOfChain ps c).Nodup := by
  intro c
  induction c with
  | nil => intro _; exact List.nodup_nil
  | cons p rest ih =>
    intro hnd
    rcases List.nodup_cons.mp hnd with ⟨hpm, hrest⟩
    rw [ridsOfChain]
    refine List.nodup_append.mpr ⟨pageRidsFrom_nodup ps p 0, ih hrest, ?_⟩
    intro r hr1 hr2
    have h1 : r.pageNo = p := mem_pageRidsFrom_pageNo ps p 0 r hr1
    have h2 : r.pageNo ∈ rest := mem_ridsOfChain_pageNo ps rest r hr2
    rw [h1] at h2
    exact hpm h2

/-- The heap-file scan state: the HeapFileScan cursor, mark and predicate
fields, the identity of the open file and the logical contents of its data
pages, and the full buffer-manager state (the BufState embedding of
src/buf.C) that every pin, unpin and page read of the scan goes through.
The scan reads records through curPage, which points at the pinned pool
frame; since the scan issues no writes, the frame bytes equal the file
image, which the model keeps as the association list pages. -/
structure ScanState where
  buf : BufState
  fid : Nat
  pages : List (Int × DataPage)
  firstPage : Int
  curPageSome : Bool
  curPageNo : Int
  curDirtyFlag : Bool
  curRec : RID
  markedPageNo : Int
  markedRec : RID
  filter : Option Int
  offset : Int
  length : Int
  type : Int
  op : Int
  deriving DecidableEq, Repr

/-- HeapFileScan::matchRec (heapfile.C lines 459-511) read from the scan
state that carries the real buffer manager; the same embedding as matchRec
above. -/
def matchRecS (s : ScanState) (rec : Record) : Bool :=
  match s.filter with
  | none => true
  | some fv =>
    if s.offset + s.length - 1 ≥ (rec.len : Int) then false
    else
      let diff : Int := rec.val - fv
      if s.op = LTop then diff < 0
      else if s.op = LTEop then diff ≤ 0
      else if s.op = EQop then diff = 0
      else if s.op = GTEop then diff ≥ 0
      else if s.op = GTop then diff > 0
      else if s.op = NEop then diff ≠ 0
      else false

/-- The body of HeapFileScan::scanNext's while(true) loop (heapfile.C lines
380-422), fueled; every unpin and page read goes through the unPinPage and
readPage embeddings of src/buf.C, so the buffer manager's failure statuses
propagate to the caller exactly as in the source.  none means the fuel ran
out or the model is outside the source's defined states (a pool frame
holding a page that is not in the file).  The RID component is the output
parameter (NULLRID on the non-OK paths, which leave it unset in the
source). -/
def scanLoop : ScanState → Nat → Option (Status × RID × ScanState)
  | _, 0 => none
  | s, fuel + 1 =>
    match pageLookup s.pages s.curPageNo with
    | none => none
    | some pg =>
      match Page_nextRecord pg s.curRec with
      | some nextRid =>
        let s1 := {s with curRec := nextRid}
        match Page_getRecord pg s1.curRec with
        | none => some (Status.INVALIDSLOTNO, NULLRID, s1)
        | some rec =>
          if matchRecS s1 rec then some (Status.OK, s1.curRec, s1)
          else scanLoop s1 fuel
      | none =>
        if pg.nextPage = -1 then some (Status.FILEEOF, NULLRID, s)
        else
          match unPinPage s.buf s.fid s.curPageNo s.curDirtyFlag with
          | none => none
          | some (Status.OK, b1) =>
            let s2 := {s with buf := b1, curPageNo := pg.nextPage, curDirtyFlag := false}
            match readPage s2.buf s2.fid pg.nextPage with
            | none => none
            | some (Status.OK, _, b2) =>
              let s3 := {s2 with buf := b2}
              match pageLookup s3.pages pg.nextPage with
              | none => none
              | some pg2 =>
                match Page_firstRecord pg2 with
                | none => scanLoop s3 fuel
                | some r =>
                  let s4 := {s3 with curRec := r}
                  match Page_getRecord pg2 s4.curRec with
                  | none => some (Status.INVALIDSLOTNO, NULLRID, s4)
                  | some rec =>
                    if matchRecS s4 rec then some (Status.OK, s4.curRec, s4)
                    else scanLoop s4 fuel
            | some (st, _, b2) => some (st, NULLRID, {s2 with buf := b2})
          | some (st, b1) => some (st, NULLRID, {s with buf := b1})

/-- HeapFileScan::scanNext (heapfile.C lines 353-425) over the real buffer
manager. -/
def scanNext (s : ScanState) (fuel : Nat) : Option (Status × RID × ScanState) :=
  if s.curPageSome then scanLoop s fuel
  else
    let s1 := {s with curPageNo := s.firstPage, curDirtyFlag := false}
    match readPage s1.buf s1.fid s1.curPageNo with
    | none => none
    | some (Status.OK, _, b2) =>
      let s2 := {s1 with buf := b2, curPageSome := true}
      match pageLookup s2.pages s2.curPageNo with
      | none => none
      | some pg =>
        match Page_firstRecord pg with
        | none => some (Status.NORECORDS, NULLRID, s2)
        | some r => scanLoop {s2 with curRec := r} fuel
    | some (st, _, b2) => some (st, NULLRID, {s1 with buf := b2})

/-- Repeated scanNext calls, collecting the returned RIDs until the first
non-OK status. -/
def collectScan : ScanState → Nat → Nat → Option (List RID × Status × ScanState)
  | _, 0, _ => none
  | s, calls + 1, fuel =>
    match scanNext s fuel with
    | none => none
    | some (Status.OK, r, s1) =>
      match collectScan s1 calls fuel with
      | none => none
      | some (l, st, t) => some (r :: l, st, t)
    | some (st, _, s1) => some ([], st, s1)

/-- Page p of file f is resident in the buffer pool: the hash table maps it
to a frame that exists in the frame table. -/
def residentP (b : BufState) (f : Nat) (p : Int) : Prop :=
  ∃ fr d, hfind b.hashTable (f, p) = some fr ∧ b.bufTable.get? fr = some d

/-- Page p of file f is resident with at least one pin, as the scan's
current page is. -/
def curPinnedP (b : BufState) (f : Nat) (p : Int) : Prop :=
  ∃ fr d, hfind b.hashTable (f, p) = some fr ∧ b.bufTable.get? fr = some d ∧
    0 < d.pinCnt

/-- Every page of the list is resident. -/
def residentAllP (b : BufState) (f : Nat) (c : List Int) : Prop :=
  ∀ p, p ∈ c → residentP b f p

theorem get?_set_isSome {α : Type} (l : List α) (i j : Nat) (a : α) :
    ((l.set i a).get? j).isSome = (l.get? j).isSome := by
  by_cases hij : i = j
  · subst hij
    rw [List.get?_set_eq]
    cases hx : l.get? i <;> rfl
  · rw [get?_set_ne l i j a hij]

theorem get?_some_lt {α : Type} (l : List α) (i : Nat) (a : α)
    (h : l.get? i = some a) : i < l.length := by
  by_contra hle
  rw [List.get?_eq_none.mpr (by omega)] at h
  exact Option.noConfusion h

theorem residentP_transfer (b b2 : BufState) (f : Nat) (p : Int)
    (hh : b2.hashTable = b.hashTable)
    (hs : ∀ fr, (b2.bufTable.get? fr).isSome = (b.bufTable.get? fr).isSome)
    (h : residentP b f p) : residentP b2 f p := by
  rcases h with ⟨fr, d, h1, h2⟩
  have hsome : (b2.bufTable.get? fr).isSome = true := by
    rw [hs fr, h2]
    rfl
  rcases Option.isSome_iff_exists.mp hsome with ⟨d2, hd2⟩
  exact ⟨fr, d2, by rw [hh]; exact h1, hd2⟩

theorem residentAllP_transfer (b b2 : BufState) (f : Nat) (c : List Int)
    (hh : b2.hashTable = b.hashTable)
    (hs : ∀ fr, (b2.bufTable.get? fr).isSome = (b.bufTable.get? fr).isSome)
    (h : residentAllP b f c) : residentAllP b2 f c :=
  fun p hp => residentP_transfer b b2 f p hh hs (h p hp)

/-- One scanNext advancing inside the current page under a null filter:
returns the next slot's RID, moves only the cursor record and leaves the
buffer manager untouched. -/
theorem scanNext_stepA (s : ScanState) (pg : DataPage) (fuel : Nat)
    (hsome : s.curPageSome = true)
    (hpg : pageLookup s.pages s.curPageNo = some pg)
    (hpn : pg.pageNo = s.curPageNo)
    (hfil : s.filter = none)
    (hj0 : -1 ≤ s.curRec.slotNo)
    (hjlt : s.curRec.slotNo + 1 < (pg.recs.length : Int)) :
    scanNext s (fuel + 1) =
      some (Status.OK, ⟨s.curPageNo, s.curRec.slotNo + 1⟩,
            {s with curRec := ⟨s.curPageNo, s.curRec.slotNo + 1⟩}) := by
  rw [scanNext, if_pos hsome, scanLoop, hpg]
  dsimp only
  rw [Page_nextRecord, if_pos ⟨by omega, hjlt⟩]
  dsimp only
  rw [Page_getRecord]
  dsimp only
  rw [if_pos (by omega : (0 : Int) ≤ s.curRec.slotNo + 1)]
  cases hget : pg.recs.get? (s.curRec.slotNo + 1).toNat with
  | none =>
    rw [List.get?_eq_none] at hget
    exfalso
    omega
  | some rec =>
    dsimp only
    have hm : matchRecS {s with curRec := (⟨pg.pageNo, s.curRec.slotNo + 1⟩ : RID)} rec = true := by
      rw [matchRecS]
      dsimp only
      rw [hfil]
    rw [if_pos hm, hpn]

/-- The terminal scanNext at the last slot of the last page: FILEEOF with
the state unchanged. -/
theorem scanNext_stepEOF (s : ScanState) (pg : DataPage) (fuel : Nat)
    (hsome : s.curPageSome = true)
    (hpg : pageLookup s.pages s.curPageNo = some pg)
    (hnolt : ¬(s.curRec.slotNo + 1 < (pg.recs.length : Int)))
    (hlast : pg.nextPage = -1) :
    scanNext s (fuel + 1) = some (Status.FILEEOF, NULLRID, s) := by
  rw [scanNext, if_pos hsome, scanLoop, hpg]
  dsimp only
  rw [Page_nextRecord, if_neg (by intro hcon; exact hnolt hcon.2)]
  dsimp only
  rw [if_pos hlast]

/-- One scanNext crossing to the (nonempty, resident) next page under a
null filter: the pinned cursor page is unpinned and the next page pinned
through the real buffer manager (both on the hit path), and slot 0's RID is
returned.  The resulting buffer state keeps the residency index and every
frame's existence, and holds the new current page pinned. -/
theorem scanNext_stepB (s : ScanState) (pg pg2 : DataPage) (fuel : Nat)
    (hsome : s.curPageSome = true)
    (hpg : pageLookup s.pages s.curPageNo = some pg)
    (hfil : s.filter = none)
    (hnolt : ¬(s.curRec.slotNo + 1 < (pg.recs.length : Int)))
    (hq0 : 0 ≤ pg.nextPage)
    (hpg2 : pageLookup s.pages pg.nextPage = some pg2)
    (hpn2 : pg2.pageNo = pg.nextPage)
    (hne : pg2.recs ≠ [])
    (hpin : curPinnedP s.buf s.fid s.curPageNo)
    (hresN : residentP s.buf s.fid pg.nextPage) :
    ∃ b2 : BufState, scanNext s (fuel + 1) =
      some (Status.OK, ⟨pg.nextPage, 0⟩,
            {s with buf := b2, curPageNo := pg.nextPage, curDirtyFlag := false,
                    curRec := ⟨pg.nextPage, 0⟩}) ∧
      b2.hashTable = s.buf.hashTable ∧
      (∀ fr, (b2.bufTable.get? fr).isSome = (s.buf.bufTable.get? fr).isSome) ∧
      curPinnedP b2 s.fid pg.nextPage := by
  rcases hpin with ⟨frC, dC, hfC, hgC, hpc⟩
  rcases hresN with ⟨frN, dN, hfN, hgN⟩
  have hN1 : ((s.buf.bufTable.set frC {dC with dirty := if s.curDirtyFlag then true else dC.dirty, pinCnt := dC.pinCnt - 1}).get? frN).isSome = true := by
    rw [get?_set_isSome, hgN]
    rfl
  rcases Option.isSome_iff_exists.mp hN1 with ⟨dN1, hgN1⟩
  refine ⟨{s.buf with bufTable := (s.buf.bufTable.set frC {dC with dirty := if s.curDirtyFlag then true else dC.dirty, pinCnt := dC.pinCnt - 1}).set frN {dN1 with refbit := true, pinCnt := dN1.pinCnt + 1}}, ?_, rfl, ?_, ?_⟩
  · rw [scanNext, if_pos hsome, scanLoop, hpg]
    dsimp only
    rw [Page_nextRecord, if_neg (by intro hcon; exact hnolt hcon.2)]
    dsimp only
    rw [if_neg (by omega : ¬pg.nextPage = -1), unPinPage, hfC]
    dsimp only
    rw [hgC]
    dsimp only
    rw [if_neg (by omega : ¬dC.pinCnt = 0)]
    dsimp only
    rw [readPage]
    dsimp only
    rw [hfN]
    dsimp only
    rw [hgN1]
    dsimp only
    rw [hpg2]
    dsimp only
    rw [Page_firstRecord, if_neg (by simp [hne])]
    dsimp only
    rw [Page_getRecord]
    dsimp only
    rw [if_pos (by omega : (0 : Int) ≤ 0)]
    cases hget : pg2.recs.get? (0 : Int).toNat with
    | none =>
      rw [List.get?_eq_none] at hget
      exfalso
      have : pg2.recs.length ≠ 0 := fun hz => hne (List.length_eq_zero.mp hz)
      omega
    | some rec =>
      dsimp only
      rw [show matchRecS _ rec = true by rw [matchRecS]; dsimp only; rw [hfil]]
      rw [if_pos rfl, hpn2]
  · intro fr
    rw [get?_set_isSome, get?_set_isSome]
  · refine ⟨frN, {dN1 with refbit := true, pinCnt := dN1.pinCnt + 1}, hfN, ?_, Nat.succ_pos _⟩
    exact get?_set_self _ frN _ (get?_some_lt _ frN dN1 hgN1)

/-- The core of the C6 analysis: from a cursor mid-page (m slots after the
current one on the current page) on a chain with remaining pages c, with
the current page pinned and every remaining page resident, collecting with
exactly the number of calls left yields precisely the remaining RIDs in
order, ends in FILEEOF, and the end state is a FILEEOF fixed point. -/
theorem collect_from : ∀ (c : List Int) (m : Nat) (s : ScanState) (pg : DataPage) (fuel : Nat),
    s.filter = none →
    s.curPageSome = true →
    isChainFrom s.pages s.curPageNo (s.curPageNo :: c) = true →
    pageLookup s.pages s.curPageNo = some pg →
    -1 ≤ s.curRec.slotNo →
    s.curRec.slotNo + 1 + (m : Int) = (pg.recs.length : Int) →
    curPinnedP s.buf s.fid s.curPageNo →
    residentAllP s.buf s.fid c →
    ∃ t, collectScan s (m + (ridsOfChain s.pages c).length + 1) (fuel + 1) =
      some (pageRidsFrom s.pages s.curPageNo (s.curRec.slotNo + 1).toNat ++ ridsOfChain s.pages c,
            Status.FILEEOF, t) ∧
      scanNext t (fuel + 1) = some (Status.FILEEOF, NULLRID, t) := by
  intro c
  induction c with
  | nil =>
    intro m
    induction m with
    | zero =>
      intro s pg fuel hfil hsome hchain hpg hj0 hlen hpin hres
      rcases isChainFrom_cons _ _ _ _ hchain with ⟨-, hp0, pg', hpg', hpn', hne', hrest⟩
      rw [hpg] at hpg'
      cases hpg'
      have hlast : pg.nextPage = -1 := isChainFrom_nil _ _ hrest
      have heof := scanNext_stepEOF s pg fuel hsome hpg (by omega) hlast
      refine ⟨s, ?_, heof⟩
      rw [collectScan, heof]
      dsimp only
      rw [pageRidsFrom_end s.pages s.curPageNo pg hpg _ (by omega)]
      rfl
    | succ m ihm =>
      intro s pg fuel hfil hsome hchain hpg hj0 hlen hpin hres
      have hjlt : s.curRec.slotNo + 1 < (pg.recs.length : Int) := by omega
      rcases isChainFrom_cons _ _ _ _ hchain with ⟨-, hp0, pg', hpg', hpn', hne', hrest⟩
      rw [hpg] at hpg'
      cases hpg'
      have hstep := scanNext_stepA s pg fuel hsome hpg hpn' hfil hj0 hjlt
      rcases ihm {s with curRec := ⟨s.curPageNo, s.curRec.slotNo + 1⟩} pg fuel hfil hsome
        hchain hpg (by exact (by omega : (-1 : Int) ≤ s.curRec.slotNo + 1))
        (by exact (by omega : s.curRec.slotNo + 1 + 1 + (m : Int) = (pg.recs.length : Int)))
        hpin hres with ⟨t, hcoll, heof⟩
      refine ⟨t, ?_, heof⟩
      rw [collectScan, hstep]
      dsimp only
      have harg : m + 1 + (ridsOfChain s.pages []).length =
          m + (ridsOfChain s.pages []).length + 1 := by omega
      rw [harg, hcoll]
      have hklt : (s.curRec.slotNo + 1).toNat < pg.recs.length := by omega
      rw [pageRidsFrom_cons s.pages s.curPageNo pg hpg _ hklt]
      have hk1 : (((s.curRec.slotNo + 1).toNat : Nat) : Int) = s.curRec.slotNo + 1 := by omega
      have hk2 : (s.curRec.slotNo + 1).toNat + 1 = (s.curRec.slotNo + 1 + 1).toNat := by omega
      rw [hk1, hk2]
      rfl
  | cons q rest ihc =>
    intro m
    induction m with
    | zero =>
      intro s pg fuel hfil hsome hchain hpg hj0 hlen hpin hres
      rcases isChainFrom_cons _ _ _ _ hchain with ⟨-, hp0, pg', hpg', hpn', hne', hrest⟩
      rw [hpg] at hpg'
      cases hpg'
      rcases isChainFrom_cons _ _ _ _ hrest with ⟨hq, hq0, pgq, hpgq, hpnq, hneq, hrestq⟩
      have hpgq2 : pageLookup s.pages pg.nextPage = some pgq := by rw [hq]; exact hpgq
      have hpnq2 : pgq.pageNo = pg.nextPage := by rw [hpnq, hq]
      have hresN : residentP s.buf s.fid pg.nextPage := by
        rw [hq]
        exact hres q (List.mem_cons_self q rest)
      rcases scanNext_stepB s pg pgq fuel hsome hpg hfil (by omega) (by omega)
        hpgq2 hpnq2 hneq hpin hresN with ⟨b2, hstep, hh, hs, hpin2⟩
      have hlenq : 0 < pgq.recs.length := List.length_pos.mpr hneq
      have hchain2 : isChainFrom s.pages pg.nextPage (pg.nextPage :: rest) = true := by
        rw [hq]
        rw [hq] at hrest
        exact hrest
      have hres2 : residentAllP b2 s.fid rest :=
        residentAllP_transfer s.buf b2 s.fid rest hh hs
          (fun p hp => hres p (List.mem_cons_of_mem q hp))
      rcases ihc (pgq.recs.length - 1)
        {s with buf := b2, curPageNo := pg.nextPage, curDirtyFlag := false,
                curRec := ⟨pg.nextPage, 0⟩} pgq fuel hfil hsome
        (by exact hchain2) (by exact hpgq2)
        (by exact (by omega : (-1 : Int) ≤ (0 : Int)))
        (by exact (by omega : (0 : Int) + 1 + ((pgq.recs.length - 1 : Nat) : Int) = (pgq.recs.length : Int)))
        (by exact hpin2) (by exact hres2) with ⟨t, hcoll, heof⟩
      dsimp only at hcoll
      refine ⟨t, ?_, heof⟩
      rw [collectScan, hstep]
      dsimp only
      have hL : (ridsOfChain s.pages (q :: rest)).length =
          pgq.recs.length + (ridsOfChain s.pages rest).length :=
        ridsOfChain_len_cons s.pages q rest pgq hpgq
      have harg : 0 + (ridsOfChain s.pages (q :: rest)).length =
          (pgq.recs.length - 1) + (ridsOfChain s.pages rest).length + 1 := by
        rw [hL]
        omega
      rw [harg, hcoll]
      rw [pageRidsFrom_end s.pages s.curPageNo pg hpg _ (by omega)]
      have hchq : ridsOfChain s.pages (q :: rest) =
          pageRidsFrom s.pages q 0 ++ ridsOfChain s.pages rest := rfl
      rw [hchq, pageRidsFrom_cons s.pages q pgq hpgq 0 hlenq]
      rw [show pageRidsFrom s.pages pg.nextPage ((0 : Int) + 1).toNat =
          pageRidsFrom s.pages q 1 by rw [hq]; rfl]
      rw [show (⟨pg.nextPage, 0⟩ : RID) = (⟨q, (((0 : Nat) : Int))⟩ : RID) by rw [hq]; rfl]
      rfl
    | succ m ihm =>
      intro s pg fuel hfil hsome hchain hpg hj0 hlen hpin hres
      have hjlt : s.curRec.slotNo + 1 < (pg.recs.length : Int) := by omega
      rcases isChainFrom_cons _ _ _ _ hchain with ⟨-, hp0, pg', hpg', hpn', hne', hrest⟩
      rw [hpg] at hpg'
      cases hpg'
      have hstep := scanNext_stepA s pg fuel hsome hpg hpn' hfil hj0 hjlt
      rcases ihm {s with curRec := ⟨s.curPageNo, s.curRec.slotNo + 1⟩} pg fuel hfil hsome
        hchain hpg (by exact (by omega : (-1 : Int) ≤ s.curRec.slotNo + 1))
        (by exact (by omega : s.curRec.slotNo + 1 + 1 + (m : Int) = (pg.recs.length : Int)))
        hpin hres with ⟨t, hcoll, heof⟩
      refine ⟨t, ?_, heof⟩
      rw [collectScan, hstep]
      dsimp only
      have harg : m + 1 + (ridsOfChain s.pages (q :: rest)).length =
          m + (ridsOfChain s.pages (q :: rest)).length + 1 := by omega
      rw [harg, hcoll]
      have hklt : (s.curRec.slotNo + 1).toNat < pg.recs.length := by omega
      rw [pageRidsFrom_cons s.pages s.curPageNo pg hpg _ hklt]
      have hk1 : (((s.curRec.slotNo + 1).toNat : Nat) : Int) = s.curRec.slotNo + 1 := by omega
      have hk2 : (s.curRec.slotNo + 1).toNat + 1 = (s.curRec.slotNo + 1 + 1).toNat := by omega
      rw [hk1, hk2]
      rfl

/-- C6: scan exhaustiveness through the real buffer manager.  For a fresh
scan — cursor pinned on the first data page with curRec = NULLRID, exactly
as the HeapFile constructor leaves it — with a null filter over a file
whose data pages form the chain `chain`, and with every chain page resident
in the buffer pool so that each page crossing hits (the counterexample
shows the claim fails without this), the repeated scanNext calls of
collectScan return exactly the RIDs of the file in page-chain order and
per-page slot order starting at the first record of the first data page,
the returned list is duplicate-free (each record exactly once), and the
call after the last record returns FILEEOF with the state unchanged, so
every further call returns FILEEOF as well. -/
theorem c6_scanNext_exhaustive (s : ScanState) (chain : List Int) (fuel : Nat)
    (hfil : s.filter = none)
    (hsome : s.curPageSome = true)
    (hfirst : s.curPageNo = s.firstPage)
    (hcur : s.curRec = NULLRID)
    (hne : chain ≠ [])
    (hchain : isChainFrom s.pages s.firstPage chain = true)
    (hpin : curPinnedP s.buf s.fid s.firstPage)
    (hres : residentAllP s.buf s.fid chain) :
    ∃ t, collectScan s ((ridsOfChain s.pages chain).length + 1) (fuel + 1) =
        some (ridsOfChain s.pages chain, Status.FILEEOF, t) ∧
      (ridsOfChain s.pages chain).Nodup ∧
      scanNext t (fuel + 1) = some (Status.FILEEOF, NULLRID, t) := by
  cases chain with
  | nil => exact absurd rfl hne
  | cons p0 crest =>
    rcases isChainFrom_cons _ _ _ _ hchain with ⟨hp0eq, hp00, pg, hpg, hpn, hne', hrest⟩
    have hcp : s.curPageNo = p0 := hfirst.trans hp0eq
    have hslot : s.curRec.slotNo = -1 := by rw [hcur]; rfl
    have hnodup : (ridsOfChain s.pages (p0 :: crest)).Nodup :=
      ridsOfChain_nodup s.pages _ (isChainFrom_nodup s.pages _ _ hchain)
    rcases collect_from crest pg.recs.length s pg fuel hfil hsome
      (by rw [hcp]; rw [hp0eq] at hchain; exact hchain)
      (by rw [hcp]; exact hpg)
      (by omega)
      (by rw [hslot]; omega)
      (by rw [hcp, ← hp0eq]; exact hpin)
      (fun p hp => hres p (List.mem_cons_of_mem p0 hp)) with ⟨t, hcoll, heof⟩
    refine ⟨t, ?_, hnodup, heof⟩
    rw [ridsOfChain_len_cons s.pages p0 crest pg hpg]
    rw [show ridsOfChain s.pages (p0 :: crest) =
        pageRidsFrom s.pages p0 0 ++ ridsOfChain s.pages crest from rfl]
    rw [hcp, hslot] at hcoll
    have h0 : ((-1 : Int) + 1).toNat = 0 := rfl
    rw [h0] at hcoll
    exact hcoll

/-- A buffer pool of three frames holding the two data pages (page 2
pinned as the scan cursor, page 3 resident unpinned) and the pinned header
page 1 of file 7. -/
def c6Buf : BufState :=
  { numBufs := 3,
    bufTable := [⟨0, true, some 7, 2, 1, false, true⟩, ⟨1, true, some 7, 3, 0, false, true⟩, ⟨2, true, some 7, 1, 1, false, false⟩],
    bufPool := [0, 0, 0],
    hashTable := [((7, 2), 0), ((7, 3), 1), ((7, 1), 2)],
    clockHand := 0, disk := [], readErrs := [], writeErrs := [],
    readLog := [], writeLog := [], nextAlloc := 10 }

/-- A fresh null-filter scan over a two-page file holding three records,
with both data pages resident. -/
def c6State : ScanState :=
  { buf := c6Buf, fid := 7,
    pages := [(2, ⟨2, [⟨4, 11⟩, ⟨4, 12⟩], 3⟩), (3, ⟨3, [⟨4, 13⟩], -1⟩)],
    firstPage := 2, curPageSome := true, curPageNo := 2, curDirtyFlag := false,
    curRec := NULLRID, markedPageNo := 0, markedRec := NULLRID,
    filter := none, offset := 0, length := 0, type := 0, op := 0 }

theorem c6_scanNext_exhaustive_witness :
    ∃ t, collectScan c6State ((ridsOfChain c6State.pages [2, 3]).length + 1) (5 + 1) =
        some (ridsOfChain c6State.pages [2, 3], Status.FILEEOF, t) ∧
      (ridsOfChain c6State.pages [2, 3]).Nodup ∧
      scanNext t (5 + 1) = some (Status.FILEEOF, NULLRID, t) :=
  c6_scanNext_exhaustive c6State [2, 3] 5 rfl rfl rfl rfl (by decide) (by decide)
    ⟨0, ⟨0, true, some 7, 2, 1, false, true⟩, by decide, by decide, by decide⟩
    (by
      intro p hp
      rcases List.mem_cons.mp hp with h | hp2
      · subst h
        exact ⟨0, ⟨0, true, some 7, 2, 1, false, true⟩, by decide, by decide⟩
      · rcases List.mem_cons.mp hp2 with h | h3
        · subst h
          exact ⟨1, ⟨1, true, some 7, 3, 0, false, true⟩, by decide, by decide⟩
        · exact absurd h3 (List.not_mem_nil p))

/-- A pool of only two frames: the scan's pinned cursor page 2 (refbit set)
and the pinned header page 1 of file 7; data page 3 is not resident. -/
def c6BadBuf : BufState :=
  { numBufs := 2,
    bufTable := [⟨0, true, some 7, 2, 1, false, true⟩, ⟨1, true, some 7, 1, 1, false, false⟩],
    bufPool := [0, 0],
    hashTable := [((7, 2), 0), ((7, 1), 1)],
    clockHand := 0, disk := [], readErrs := [], writeErrs := [],
    readLog := [], writeLog := [], nextAlloc := 10 }

/-- A fresh null-filter scan over a two-page file whose second page must be
read through the two-frame pool above. -/
def c6Bad : ScanState :=
  { buf := c6BadBuf, fid := 7,
    pages := [(2, ⟨2, [⟨4, 11⟩], 3⟩), (3, ⟨3, [⟨4, 13⟩], -1⟩)],
    firstPage := 2, curPageSome := true, curPageNo := 2, curDirtyFlag := false,
    curRec := NULLRID, markedPageNo := 0, markedRec := NULLRID,
    filter := none, offset := 0, length := 0, type := 0, op := 0 }

/-- The original claim fails against the real buffer manager: on a fresh
null-filter scan over the chain [2, 3] (all claim premises hold), the
page crossing to the non-resident page 3 calls BufMgr::readPage, whose
allocBuf counts the single pinned header frame once per sweep and reaches
numBufs = 2 before ever reaching the just-unpinned frame 0, so the second
scanNext returns BUFFEREXCEEDED: the collected RIDs stop at [(2,0)] and
record (3,0) is never returned, instead of every RID followed by
FILEEOF. -/
theorem c6_scan_counterexample :
    isChainFrom c6Bad.pages c6Bad.firstPage [2, 3] = true ∧
    c6Bad.filter = none ∧ c6Bad.curPageSome = true ∧
    c6Bad.curPageNo = c6Bad.firstPage ∧ c6Bad.curRec = NULLRID ∧
    ridsOfChain c6Bad.pages [2, 3] = [⟨2, 0⟩, ⟨3, 0⟩] ∧
    (collectScan c6Bad ((ridsOfChain c6Bad.pages [2, 3]).length + 1) 6).map
      (fun x => (x.1, x.2.1)) = some ([⟨2, 0⟩], Status.BUFFEREXCEEDED) := by
  refine ⟨by decide, rfl, rfl, rfl, rfl, by decide, by decide⟩

